import Mathlib

/-!
Verification development for the DebtTracker application.

The embedding below translates the persistence layer (Electron main process,
`src/unnamed/part_004`), the renderer-side storage service
(`src/unnamed/part_001`), the application state cache and its handlers
(`src/App.tsx`) and the import/aggregation views (`src/components/Views.tsx`)
into executable Lean definitions.  Conventions used throughout:

* JavaScript numbers that hold money amounts are modelled as `Int`.
* Optional TS fields (`tags?: string[]`, `isDefault?: boolean`,
  `dueDate?: string`) become `Option`; the JS truthiness test used by the
  source on plain strings treats the empty string like `undefined`, so string
  fields checked for truthiness keep type `String` with `""` standing for a
  missing value where the source only ever distinguishes falsy from truthy.
* `JSON.stringify`/`JSON.parse` pairs applied to whole records
  (the `appSettings` and `currentAccountId` scalar cells) are modelled as the
  identity on the structured value: the codec is injective and total on these
  record shapes, and no claim depends on the concrete text.
* SQLite statement failures are modelled by an oracle `fail : Nat → Bool`
  deciding whether the k-th statement inside a transaction raises; the
  engine-level semantics of `BEGIN`/`COMMIT`/`ROLLBACK` is state restoration.
-/

namespace DebtTracker

/-- `src/types.ts` restricts `type` to the union `'LEND' | 'REPAYMENT'`;
the runtime value is a plain string and every use site compares strings,
so the model keeps `String`. -/
abbrev TransactionType := String

/-- Account record, `src/types.ts`. -/
structure Account where
  id : String
  name : String
  avatarColor : String
  isDefault : Option Bool
deriving DecidableEq, Repr, Inhabited

/-- Transaction record, `src/types.ts`.  `id`/`accountId` are typed `string`
in TS; legacy rows may miss them at runtime and the source only ever checks
truthiness (`!t.id`, `tx.accountId || …`), so `""` models the absent case. -/
structure Transaction where
  id : String
  accountId : String
  borrower : String
  amount : Int
  date : String
  dueDate : Option String
  type : TransactionType
  note : String
  category : String
  tags : Option (List String)
deriving DecidableEq, Repr, Inhabited

/-- Settings record, `src/types.ts`. -/
structure AppSettings where
  currency : String
  dateFormat : String
  language : String
  categories : List String
deriving DecidableEq, Repr, Inhabited

/-- The renderer-side snapshot, `AppState` in `src/unnamed/part_001`. -/
structure AppState where
  accounts : List Account
  currentAccountId : String
  transactions : List Transaction
  settings : AppSettings
deriving DecidableEq, Repr, Inhabited

/-- JS truthiness of an optional boolean (`acc.isDefault ? 1 : 0`). -/
def jsTruthyBool : Option Bool → Bool
  | some b => b
  | none => false

namespace Main

/-! Model of the Electron main process / SQLite record store,
`src/unnamed/part_004`. -/

/-- A row of the `accounts` table (`isDefault INTEGER DEFAULT 0`). -/
structure AccountRow where
  id : String
  name : String
  avatarColor : String
  isDefault : Int
deriving DecidableEq, Repr, Inhabited

/-- A row of the `transactions` table.  `tags TEXT` is nullable and holds the
JSON text of the tag list; the JSON codec on a string list is injective, so
the cell is modelled as `Option (List String)` (with `none` for SQL `NULL`).
`JSON.stringify` of a list is never the empty string, so JS truthiness of the
cell coincides with `Option.isSome`. -/
structure TransactionRow where
  id : String
  accountId : String
  borrower : String
  amount : Int
  date : String
  dueDate : Option String
  type : String
  note : String
  category : String
  tags : Option (List String)
deriving DecidableEq, Repr, Inhabited

/-- The `settings` key/value table restricted to the two keys the code uses. -/
structure KVStore where
  currentAccountId : Option String
  appSettings : Option AppSettings
deriving DecidableEq, Repr, Inhabited

/-- The whole SQLite database after `initializeDatabase`. -/
structure Store where
  accounts : List AccountRow
  transactions : List TransactionRow
  kv : KVStore
deriving DecidableEq, Repr, Inhabited

/-- The freshly created database: three empty collections. -/
def emptyStore : Store :=
  { accounts := [], transactions := [], kv := { currentAccountId := none, appSettings := none } }

/-- `seedDefaults` (part_004 lines 104-117): inserts the default account and
the active-account pointer when the accounts table is empty. -/
def seedDefaults (s : Store) : Store :=
  if s.accounts.length = 0 then
    { s with
      accounts := [{ id := "default_account", name := "Main Account",
                     avatarColor := "bg-ios-blue", isDefault := 1 }],
      kv := { s.kv with currentAccountId := some "default_account" } }
  else s

/-- `serializeTransactions` (part_004 lines 119-120), on one transaction:
`tags: t.tags ? JSON.stringify(t.tags) : null`.  A present (even empty) list
is truthy in JS, so it is stored; an absent list becomes `NULL`. -/
def serializeTransaction (t : Transaction) : TransactionRow :=
  { id := t.id, accountId := t.accountId, borrower := t.borrower,
    amount := t.amount, date := t.date, dueDate := t.dueDate,
    type := t.type, note := t.note, category := t.category,
    tags := t.tags }

/-- `deserializeTransactions` (part_004 lines 122-123), on one row:
`tags: row.tags ? JSON.parse(row.tags) : []`.  The stored JSON text of a list
is a nonempty string, hence truthy; a `NULL` cell yields the empty list.
Note the result always carries a tags list. -/
def deserializeTransaction (r : TransactionRow) : Transaction :=
  { id := r.id, accountId := r.accountId, borrower := r.borrower,
    amount := r.amount, date := r.date, dueDate := r.dueDate,
    type := r.type, note := r.note, category := r.category,
    tags := some (r.tags.getD []) }

/-- The account insert of `applyChanges`: `acc.isDefault ? 1 : 0`. -/
def accountToRow (a : Account) : AccountRow :=
  { id := a.id, name := a.name, avatarColor := a.avatarColor,
    isDefault := if jsTruthyBool a.isDefault then 1 else 0 }

/-- The account read of `loadAppState`: `{ ...row, isDefault: !!row.isDefault }`. -/
def rowToAccount (r : AccountRow) : Account :=
  { id := r.id, name := r.name, avatarColor := r.avatarColor,
    isDefault := some (decide (r.isDefault ≠ 0)) }

/-- One SQL statement issued by `applyChanges` (part_004 lines 151-201). -/
inductive DbOp where
  | deleteAccounts
  | insertAccount (r : AccountRow)
  | upsertCurrentAccountId (v : String)
  | upsertAppSettings (v : AppSettings)
  | deleteTransactions
  | insertTransaction (r : TransactionRow)
deriving DecidableEq, Repr

/-- Effect of a single statement on the store. -/
def DbOp.app : DbOp → Store → Store
  | .deleteAccounts, s => { s with accounts := [] }
  | .insertAccount r, s => { s with accounts := s.accounts ++ [r] }
  | .upsertCurrentAccountId v, s => { s with kv := { s.kv with currentAccountId := some v } }
  | .upsertAppSettings v, s => { s with kv := { s.kv with appSettings := some v } }
  | .deleteTransactions, s => { s with transactions := [] }
  | .insertTransaction r, s => { s with transactions := s.transactions ++ [r] }

/-- The statement sequence of the `applyChanges` transaction body, in source
order: clear accounts, insert each account, upsert the active-account pointer,
upsert the settings blob, clear transactions, insert each serialized
transaction. -/
def applyChangesOps (state : AppState) : List DbOp :=
  [DbOp.deleteAccounts]
    ++ state.accounts.map (fun a => DbOp.insertAccount (accountToRow a))
    ++ [DbOp.upsertCurrentAccountId state.currentAccountId,
        DbOp.upsertAppSettings state.settings,
        DbOp.deleteTransactions]
    ++ state.transactions.map (fun t => DbOp.insertTransaction (serializeTransaction t))

/-- Runs the statements of a transaction body; the oracle `fail` says whether
the k-th statement raises (any I/O failure).  On success the updated store and
the next statement index are returned. -/
def runOps (fail : Nat → Bool) : List DbOp → Nat → Store → Except Unit (Store × Nat)
  | [], n, s => .ok (s, n)
  | op :: ops, n, s =>
      if fail n then .error () else runOps fail ops (n + 1) (op.app s)

/-- `withTransaction` (part_004 lines 46-55) applied to a statement list:
`BEGIN`, run the body, `COMMIT` on success; on an exception `ROLLBACK` —
whose engine semantics restores the pre-`BEGIN` store — and rethrow.
The result pairs the propagated outcome with the store the caller observes. -/
def withTransaction (fail : Nat → Bool) (ops : List DbOp) (s : Store) :
    Except Unit Unit × Store :=
  match runOps fail ops 0 s with
  | .ok (s2, _) => (.ok (), s2)
  | .error e => (.error e, s)

/-- `applyChanges` (part_004 lines 151-201): all four parts of the snapshot
are written by the single statement list `applyChangesOps` inside one
`withTransaction` call; the error, when any statement fails, propagates. -/
def applyChanges (fail : Nat → Bool) (state : AppState) (s : Store) :
    Except Unit Unit × Store :=
  withTransaction fail (applyChangesOps state) s

/-- The store contents after a successful flush, independent of the previous
contents: both tables are cleared and refilled, both scalar keys upserted. -/
def flushedStore (state : AppState) : Store :=
  { accounts := state.accounts.map accountToRow,
    transactions := state.transactions.map serializeTransaction,
    kv := { currentAccountId := some state.currentAccountId,
            appSettings := some state.settings } }

/-- Result shape of the main-process `loadAppState`. -/
structure LoadedState where
  accounts : List Account
  currentAccountId : Option String
  transactions : List Transaction
  settings : Option AppSettings
deriving DecidableEq, Repr, Inhabited

/-- Stable descending insertion on the `date` column. -/
def insertByDateDesc (r : TransactionRow) : List TransactionRow → List TransactionRow
  | [] => [r]
  | x :: xs => if x.date < r.date then r :: x :: xs else x :: insertByDateDesc r xs

/-- `SELECT * FROM transactions ORDER BY date DESC`: stable descending sort
on the `date` column (insertion order kept between equal keys). -/
def orderByDateDesc (rows : List TransactionRow) : List TransactionRow :=
  rows.foldr insertByDateDesc []

/-- `loadAppState` (part_004 lines 125-149): reads the four parts and
assembles the loaded state.  The stored scalar cells are JSON texts; the
parse of the stored stringify is the identity on the value. -/
def loadAppState (s : Store) : LoadedState :=
  { accounts := s.accounts.map rowToAccount,
    currentAccountId := s.kv.currentAccountId,
    transactions := (orderByDateDesc s.transactions).map deserializeTransaction,
    settings := s.kv.appSettings }

end Main

namespace Storage

/-! Model of the renderer-side storage service, `src/unnamed/part_001`. -/

/-- The fixed seed category list (part_001 line 25). -/
def DEFAULT_CATEGORIES : List String :=
  ["Personal", "Business", "Rent", "Dining", "Groceries", "Travel", "Utilities", "Emergency"]

/-- `buildDefaultState` (part_001 lines 54-75).  The currency literal keeps
the exact bytes committed in the source file. -/
def buildDefaultState : AppState :=
  { accounts := [{ id := "default_account", name := "Main Account",
                   avatarColor := "bg-ios-blue", isDefault := some true }],
    currentAccountId := "default_account",
    transactions := [],
    settings := { currency := "Â¥", dateFormat := "YYYY-MM-DD",
                  language := "zh", categories := DEFAULT_CATEGORIES } }

/-- JS truthiness of an optional string value (`undefined` and `""` falsy). -/
def jsTruthyStr : Option String → Bool
  | some s => s ≠ ""
  | none => false

/-- `a || b` on optional strings. -/
def jsOrStr (a b : Option String) : Option String :=
  if jsTruthyStr a then a else b

/-- `a || d` with a plain-string default. -/
def jsOrStrD (a : Option String) (d : String) : String :=
  match a with
  | some s => if s = "" then d else s
  | none => d

/-- `loadAppState` (part_001 lines 77-108), success branch: normalizes the
gateway's loaded state.  The `categories ?? DEFAULT_CATEGORIES` fallback is
the identity here because the modelled settings record always carries its
(required) `categories` field. -/
def loadAppState (ls : Main.LoadedState) : AppState :=
  let normalized : AppState :=
    { accounts := if ls.accounts.length > 0 then ls.accounts else buildDefaultState.accounts,
      currentAccountId :=
        jsOrStrD (jsOrStr ls.currentAccountId ((ls.accounts.head?).map (fun a => a.id)))
          buildDefaultState.currentAccountId,
      transactions := ls.transactions,
      settings := (ls.settings).getD buildDefaultState.settings }
  if normalized.accounts.length = 0 then
    buildDefaultState
  else if ¬ normalized.accounts.any (fun a => a.id = normalized.currentAccountId) then
    { normalized with currentAccountId := normalized.accounts.headI.id }
  else
    normalized

end Storage

/-- The full start-from-empty-storage pipeline: `getDatabase` runs the schema
initialization and `seedDefaults`, the renderer then loads through the
gateway and normalizes. -/
def loadFromEmptyStorage : AppState :=
  Storage.loadAppState (Main.loadAppState (Main.seedDefaults Main.emptyStore))

/-! JavaScript `Map` modelled as an association list in insertion order:
`set` on a present key replaces the value in place, on a fresh key appends. -/

/-- `map.has(k)`. -/
def jsHasKey {α : Type} (m : List (String × α)) (k : String) : Bool :=
  m.any (fun p => decide (p.1 = k))

/-- `map.set(k, v)`. -/
def jsMapSet {α : Type} (m : List (String × α)) (k : String) (v : α) : List (String × α) :=
  if jsHasKey m k then
    m.map (fun p => if p.1 = k then (k, v) else p)
  else m ++ [(k, v)]

/-- `map.get(k)` (`undefined` as `none`): the value of the first — with
distinct keys, the only — entry for `k`. -/
def jsMapGet? {α : Type} : List (String × α) → String → Option α
  | [], _ => none
  | p :: m, k => if p.1 = k then some p.2 else jsMapGet? m k

/-- `map.get(k) || d` for values where the default is the only falsy case. -/
def jsMapGetD {α : Type} (m : List (String × α)) (k : String) (d : α) : α :=
  (jsMapGet? m k).getD d

namespace App

/-! Model of the application state cache in `src/App.tsx`. -/

/-- The persistence guards of the hydrated `App` component: the latest
snapshot (`latestStateRef`), the last-persisted serialized baseline
(`lastPersistedRef`, compared by value — `JSON.stringify` is injective and
deterministic on the snapshot shape, so the string comparison of the source
is value comparison of snapshots) and the dirty flag (`isDirtyRef`). -/
structure CacheState where
  snapshot : AppState
  lastPersisted : AppState
  isDirty : Bool
deriving DecidableEq, Repr, Inhabited

/-- The dirty-tracking effect (App.tsx lines 254-270): stores the new
snapshot in `latestStateRef` and sets — never clears — the dirty flag when
the serialized snapshot differs from the baseline. -/
def trackChanges (c : CacheState) (snap : AppState) : CacheState :=
  { c with
    snapshot := snap,
    isDirty := if snap ≠ c.lastPersisted then true else c.isDirty }

/-- `flushState` (App.tsx lines 278-297).  `persistOk` models whether the
`persistAppState` I/O call succeeds.  Returns the cache afterwards and
whether a persist call was issued.  On failure the error is caught
(logged to diagnostics only) and the cache fields are left untouched. -/
def flushState (c : CacheState) (force : Bool) (persistOk : Bool) : CacheState × Bool :=
  if ¬ force ∧ (¬ c.isDirty ∨ c.snapshot = c.lastPersisted) then (c, false)
  else if persistOk then
    ({ c with lastPersisted := c.snapshot, isDirty := false }, true)
  else (c, true)

/-- A mutation followed by the write-through effect (App.tsx lines 272-276):
the tracking effect runs, then `flushState` is invoked when the dirty flag is
set. -/
def mutationStep (c : CacheState) (snap : AppState) (persistOk : Bool) : CacheState × Bool :=
  let c2 := trackChanges c snap
  if c2.isDirty then flushState c2 false persistOk else (c2, false)

/-- The `accountId`/`id` defaulting applied to each imported transaction
(App.tsx lines 487-497): `{ ...tx, accountId: tx.accountId || currentAccountId }`. -/
def importAssign (currentAccountId : String) (tx : Transaction) : Transaction :=
  if tx.accountId = "" then { tx with accountId := currentAccountId } else tx

/-- One iteration of the import loop (App.tsx lines 487-499): default the
`accountId`, mint a fresh id via `gen` when the id is absent (threading the
count of `generateId()` calls), and `set` the result into the map. -/
def importStep (gen : Nat → String) (currentAccountId : String)
    (acc : List (String × Transaction) × Nat) (tx : Transaction) :
    List (String × Transaction) × Nat :=
  let t1 := importAssign currentAccountId tx
  let r := if t1.id = "" then ({ t1 with id := gen acc.2 }, acc.2 + 1) else (t1, acc.2)
  (jsMapSet acc.1 r.1.id r.1, r.2)

/-- `handleImportTransactions` (App.tsx lines 471-503), transaction part:
builds a JS `Map` keyed by `id` from the existing list, folds the imported
transactions into it via `importStep` and takes the map's values.  `gen n`
is the result of the (n+1)-th `generateId()` call of this import. -/
def handleImportTransactions (gen : Nat → String) (currentAccountId : String)
    (allTransactions imported : List Transaction) : List Transaction :=
  let currentMap := allTransactions.foldl (fun m t => jsMapSet m t.id t) []
  let final := imported.foldl (importStep gen currentAccountId) (currentMap, 0)
  final.1.map (fun p => p.2)

/-- `handleImportTransactions`, account part (App.tsx lines 472-482):
appends imported accounts whose id is not among the pre-import account ids
(the id set is built once and not extended during the loop). -/
def mergeImportAccounts (accounts importedAccounts : List Account) : List Account :=
  accounts ++ importedAccounts.filter (fun acc => ¬ accounts.any (fun a => decide (a.id = acc.id)))

/-- `performDelete`, `ACCOUNT` branch (App.tsx lines 553-565): drop the
account, drop its transactions from the master list, and when the active
account was deleted switch to `updatedAccounts[0]`.  Returns `none` exactly
when the source would crash reading `updatedAccounts[0].id` of an empty
list.  Result: (accounts, currentAccountId, allTransactions). -/
def performDeleteAccount (accounts : List Account) (currentAccountId : String)
    (allTransactions : List Transaction) (targetId : String) :
    Option (List Account × String × List Transaction) :=
  let updatedAccounts := accounts.filter (fun a => a.id ≠ targetId)
  let updated := allTransactions.filter (fun t => t.accountId ≠ targetId)
  if currentAccountId = targetId then
    match updatedAccounts with
    | [] => none
    | a :: _ => some (updatedAccounts, a.id, updated)
  else
    some (updatedAccounts, currentAccountId, updated)

/-- `requestDeleteAccount` (App.tsx lines 353-367): with at most one account
the request is rejected (`alert` only, no state change, no modal); otherwise
the confirmation modal for `accountId` opens. -/
def requestDeleteAccount (accounts : List Account) (accountId : String) : Option String :=
  if accounts.length ≤ 1 then none else some accountId

/-- The state reached by a delete-account request followed (when the modal
opened) by the user confirming `performDelete`. -/
def stateAfterAccountDeleteRequest (accounts : List Account) (currentAccountId : String)
    (allTransactions : List Transaction) (accountId : String) :
    List Account × String × List Transaction :=
  match requestDeleteAccount accounts accountId with
  | none => (accounts, currentAccountId, allTransactions)
  | some tid =>
      (performDeleteAccount accounts currentAccountId allTransactions tid).getD
        (accounts, currentAccountId, allTransactions)

/-- Step of the LEND pass of the distribution aggregation (App.tsx line 419):
`(borrowerMap.get(t.borrower) || 0) + t.amount`. -/
def distLendStep (acc : Option Int) (t : Transaction) : Int :=
  acc.getD 0 + t.amount

/-- Step of the REPAYMENT pass (App.tsx line 424):
`Math.max(0, (borrowerMap.get(t.borrower) || 0) - t.amount)`. -/
def distRepayStep (acc : Option Int) (t : Transaction) : Int :=
  max 0 (acc.getD 0 - t.amount)

/-- The borrower-distribution map of `chartData` (App.tsx lines 416-425):
all LEND amounts are accumulated first, then every REPAYMENT is subtracted
with a clamp at zero applied at each step. -/
def distributionMap (transactions : List Transaction) : List (String × Int) :=
  let m1 := (transactions.filter (fun t => decide (t.type = "LEND"))).foldl
    (fun m t => jsMapSet m t.borrower (distLendStep (jsMapGet? m t.borrower) t)) []
  (transactions.filter (fun t => decide (t.type = "REPAYMENT"))).foldl
    (fun m t => jsMapSet m t.borrower (distRepayStep (jsMapGet? m t.borrower) t)) m1

/-- `distributionData` (App.tsx lines 427-431): positive entries of the map,
sorted by descending value, top five. -/
def distributionData (transactions : List Transaction) : List (String × Int) :=
  (((distributionMap transactions).filter (fun p => decide (0 < p.2))).mergeSort
    (fun a b => b.2 ≤ a.2)).take 5

end App

namespace Views

/-! Model of `src/components/Views.tsx`: the borrowers aggregation and the
spreadsheet-import row mapping. -/

/-- Comparison of two `Date` values built from the ISO-8601 UTC timestamps
the application stores: lexicographic string order agrees with chronological
order on that shape. -/
def jsDateLt (a b : String) : Bool :=
  decide (a < b)

/-- `isOverdue` (Views.tsx lines 44-49); `todayStart` is the start of the
current day. -/
def isOverdue (todayStart : String) (t : Transaction) : Bool :=
  if ¬ (t.type = "LEND") ∨ Storage.jsTruthyStr t.dueDate = false then false
  else jsDateLt (t.dueDate.getD "") todayStart

/-- Per-borrower accumulator of the `BorrowersView` memo (Views.tsx line 92). -/
structure BorrowerAgg where
  lent : Int
  repaid : Int
  lastActivity : String
  hasOverdue : Bool
deriving DecidableEq, Repr, Inhabited

/-- Body of the `BorrowersView` fold (Views.tsx lines 95-106) for one
transaction: `map.get(t.borrower) || { lent: 0, repaid: 0, lastActivity:
t.date, hasOverdue: false }`, then the lent/repaid update, the last-activity
update and the overdue flag. -/
def borrowerStep (todayStart : String) (acc : Option BorrowerAgg) (t : Transaction) :
    BorrowerAgg :=
  let current := acc.getD
    { lent := 0, repaid := 0, lastActivity := t.date, hasOverdue := false }
  let c1 := if t.type = "LEND" then { current with lent := current.lent + t.amount }
            else { current with repaid := current.repaid + t.amount }
  let c2 := if jsDateLt c1.lastActivity t.date then { c1 with lastActivity := t.date } else c1
  if isOverdue todayStart t then { c2 with hasOverdue := true } else c2

/-- The `BorrowersView` aggregation map (Views.tsx lines 91-107). -/
def borrowersViewMap (todayStart : String) (transactions : List Transaction) :
    List (String × BorrowerAgg) :=
  transactions.foldl
    (fun m t => jsMapSet m t.borrower (borrowerStep todayStart (jsMapGet? m t.borrower) t)) []

/-- The `borrowers` listing (Views.tsx lines 109-113): entries extended with
`balance = lent - repaid`, sorted by descending balance. -/
def borrowersList (todayStart : String) (transactions : List Transaction) :
    List (String × BorrowerAgg × Int) :=
  (((borrowersViewMap todayStart transactions).map
      (fun p => (p.1, p.2, p.2.lent - p.2.repaid))).mergeSort
    (fun a b => b.2.2 ≤ a.2.2))

/-- A spreadsheet cell as produced by `sheet_to_json`: a number or a string. -/
inductive CellV where
  | num (n : Int)
  | str (s : String)
deriving DecidableEq, Repr

/-- JS truthiness of an optional cell (`0`, `""` and `undefined` falsy). -/
def jsTruthyCell : Option CellV → Bool
  | some (.num n) => n ≠ 0
  | some (.str s) => s ≠ ""
  | none => false

/-- One imported worksheet row (Views.tsx lines 1029-1041): each column may
appear under its English or its Chinese localized header; only the `Amount`
columns are ever inspected for their runtime type, so they keep `CellV`. -/
structure XlsxRow where
  ID : Option String
  Date : Option String
  DateZh : Option String
  Borrower : Option String
  BorrowerZh : Option String
  Category : Option String
  CategoryZh : Option String
  Tags : Option String
  TagsZh : Option String
  Status : Option String
  StatusZh : Option String
  Amount : Option CellV
  AmountZh : Option CellV
  Note : Option String
  NoteZh : Option String
  DueDate : Option String
  DueDateZh : Option String
deriving DecidableEq, Repr, Inhabited

/-- The resolved `Date` cell of a row (`row['Date'] || row['日期']`). -/
def rowDateVal (row : XlsxRow) : Option String :=
  Storage.jsOrStr row.Date row.DateZh

/-- The resolved `DueDate` cell of a row. -/
def rowDueVal (row : XlsxRow) : Option String :=
  Storage.jsOrStr row.DueDate row.DueDateZh

/-- The resolved `Amount` cell of a row. -/
def rowAmountVal (row : XlsxRow) : Option CellV :=
  if jsTruthyCell row.Amount then row.Amount else row.AmountZh

/-- All-digits check. -/
def isDigitList (cs : List Char) : Bool := cs.all Char.isDigit

/-- Conservative model of `new Date(s).toISOString()`: defined on the two
shapes the application itself exports (`YYYY-MM-DD` day strings and full ISO
UTC timestamps); `none` stands for an Invalid Date, whose `toISOString()`
throws a `RangeError`. -/
def jsDateToISO (s : String) : Option String :=
  match s.toList with
  | [y1, y2, y3, y4, '-', m1, m2, '-', d1, d2] =>
      if isDigitList [y1, y2, y3, y4, m1, m2, d1, d2] then
        some (s ++ "T00:00:00.000Z")
      else none
  | [y1, y2, y3, y4, '-', m1, m2, '-', d1, d2, 'T',
     h1, h2, ':', mi1, mi2, ':', s1, s2, '.', f1, f2, f3, 'Z'] =>
      if isDigitList [y1, y2, y3, y4, m1, m2, d1, d2, h1, h2, mi1, mi2, s1, s2, f1, f2, f3] then
        some s
      else none
  | _ => none

/-- Model of `parseFloat` restricted to integer numerals: optional sign
followed by a digit prefix; a string without a leading numeric prefix parses
to `NaN`, modelled as `none` (which `|| 0` then coerces to zero). -/
def jsParseFloat (s : String) : Option Int :=
  let cs := s.toList.dropWhile (fun c => c = ' ')
  let signAndDigits : Bool × List Char :=
    match cs with
    | '-' :: rest => (true, rest.takeWhile Char.isDigit)
    | '+' :: rest => (false, rest.takeWhile Char.isDigit)
    | _ => (false, cs.takeWhile Char.isDigit)
  if signAndDigits.2.isEmpty then none
  else
    let v : Int := (signAndDigits.2.foldl (fun n c => n * 10 + (c.toNat - '0'.toNat)) 0 : Nat)
    some (if signAndDigits.1 then -v else v)

/-- `dateVal ? new Date(dateVal).toISOString() : new Date().toISOString()`:
a truthy but unparseable date cell is an Invalid Date and its `toISOString()`
throws a `RangeError`; a falsy cell coerces to `now`. -/
def rowDateRes (now : String) (row : XlsxRow) : Except String String :=
  if Storage.jsTruthyStr (rowDateVal row) then
    match jsDateToISO ((rowDateVal row).getD "") with
    | some iso => .ok iso
    | none => .error "RangeError: Invalid time value"
  else .ok now

/-- `dueDateVal ? new Date(dueDateVal).toISOString() : undefined`. -/
def rowDueRes (row : XlsxRow) : Except String (Option String) :=
  if Storage.jsTruthyStr (rowDueVal row) then
    match jsDateToISO ((rowDueVal row).getD "") with
    | some iso => .ok (some iso)
    | none => .error "RangeError: Invalid time value"
  else .ok none

/-- `typeof amountVal === 'number' ? amountVal : parseFloat(amountVal) || 0`:
a numeric cell passes through, a string cell is parsed with `NaN` (and `0`)
collapsing to zero, a missing cell parses to `NaN` hence zero. -/
def rowAmount (row : XlsxRow) : Int :=
  match rowAmountVal row with
  | some (.num a) => a
  | some (.str s) => (jsParseFloat s).getD 0
  | none => 0

/-- The row-to-transaction mapping of `handleFileChange` (Views.tsx lines
1029-1062).  `gen n` is the (n+1)-th `generateId()` result, `now` the current
time (`new Date().toISOString()`), `targetAccountId` the resolved worksheet
account.  The `Except.error` case is the uncaught `RangeError` thrown by
`new Date(v).toISOString()` on a present but unparseable date cell. -/
def mapRow (gen : Nat → String) (n : Nat) (targetAccountId : String) (now : String)
    (row : XlsxRow) : Except String (Transaction × Nat) :=
  let borrowerVal := Storage.jsOrStrD (Storage.jsOrStr row.Borrower row.BorrowerZh) "Unknown"
  let categoryVal := Storage.jsOrStrD (Storage.jsOrStr row.Category row.CategoryZh) "Personal"
  let tagsVal := Storage.jsOrStr row.Tags row.TagsZh
  let statusVal := Storage.jsOrStr row.Status row.StatusZh
  let noteVal := Storage.jsOrStrD (Storage.jsOrStr row.Note row.NoteZh) ""
  let idVal := row.ID
  let type : TransactionType :=
    if statusVal = some "REPAYMENT" ∨ statusVal = some "还款" then "REPAYMENT" else "LEND"
  match rowDateRes now row, rowDueRes row with
  | .ok date, .ok dueDate =>
      let tags : List String :=
        if Storage.jsTruthyStr tagsVal then
          ((tagsVal.getD "").splitOn ",").map (fun x => x.trim)
        else []
      let idAndNext : String × Nat :=
        if Storage.jsTruthyStr idVal then (idVal.getD "", n) else (gen n, n + 1)
      .ok ({ id := idAndNext.1, accountId := targetAccountId, borrower := borrowerVal,
             amount := rowAmount row, date := date, dueDate := dueDate, type := type,
             note := noteVal, category := categoryVal, tags := some tags }, idAndNext.2)
  | .error e, _ => .error e
  | _, .error e => .error e

/-- Mapping a worksheet's rows in order (the `jsonData.map` of Views.tsx line
1029); a thrown `RangeError` aborts the whole import before `onImport` and
the success alert run, while on success the reported count is the length of
the produced list. -/
def importSheetRows (gen : Nat → String) (targetAccountId : String) (now : String)
    (rows : List XlsxRow) : Except String (List Transaction) :=
  (rows.foldlM
    (fun (acc : List Transaction × Nat) row => do
      let r ← mapRow gen acc.2 targetAccountId now row
      pure (acc.1 ++ [r.1], r.2))
    (([] : List Transaction), 0)).map (fun (acc : List Transaction × Nat) => acc.1)

end Views

/-! Auxiliary definitions for the statements and proofs below. -/

/-- The key list of a JS-map model. -/
def jsKeys {α : Type} (m : List (String × α)) : List String :=
  m.map (fun p => p.1)

/-- Well-formedness of an id-keyed transaction map: distinct keys and every
entry keyed by its value's id (both hold for every map the import code
builds). -/
def WfTxMap (m : List (String × Transaction)) : Prop :=
  (jsKeys m).Nodup ∧ ∀ p ∈ m, p.2.id = p.1

/-- Folding id-keyed `set` calls into a map (the `new Map(...)` construction
and the import loop both have this shape once ids are present). -/
def setFold (m : List (String × Transaction)) (ts : List Transaction) :
    List (String × Transaction) :=
  ts.foldl (fun m2 t => jsMapSet m2 t.id t) m

/-- The last transaction in `ts` whose id is `k`, else the fallback `acc`. -/
def lastIdHit (ts : List Transaction) (k : String) (acc : Option Transaction) :
    Option Transaction :=
  ts.foldl (fun a t => if t.id = k then some t else a) acc

/-- Sum of the LEND amounts of one borrower. -/
def lentSum (ts : List Transaction) (name : String) : Int :=
  (((ts.filter (fun t => decide (t.borrower = name))).filter
      (fun t => decide (t.type = "LEND"))).map (fun t => t.amount)).sum

/-- Sum of the REPAYMENT amounts of one borrower. -/
def repaidSum (ts : List Transaction) (name : String) : Int :=
  (((ts.filter (fun t => decide (t.borrower = name))).filter
      (fun t => decide (t.type = "REPAYMENT"))).map (fun t => t.amount)).sum

namespace Views

/-- Every present (truthy) date cell of the row parses as a date. -/
def rowDatesParseable (row : XlsxRow) : Prop :=
  (Storage.jsTruthyStr (rowDateVal row) = true →
     (jsDateToISO ((rowDateVal row).getD "")).isSome = true) ∧
  (Storage.jsTruthyStr (rowDueVal row) = true →
     (jsDateToISO ((rowDueVal row).getD "")).isSome = true)

instance decRowDatesParseable (row : XlsxRow) : Decidable (rowDatesParseable row) := by
  unfold rowDatesParseable
  infer_instance

/-- The resolved amount cell does not parse as a number. -/
def amountUnparseable (row : XlsxRow) : Prop :=
  match rowAmountVal row with
  | some (.num _) => False
  | some (.str s) => jsParseFloat s = none
  | none => True

/-- A worksheet row whose `Date` cell is present but not a parseable date. -/
def badRow : XlsxRow :=
  { ID := some "t9", Date := some "not-a-date", DateZh := none,
    Borrower := some "Alice", BorrowerZh := none,
    Category := none, CategoryZh := none, Tags := none, TagsZh := none,
    Status := some "LEND", StatusZh := none,
    Amount := some (.str "12"), AmountZh := none,
    Note := none, NoteZh := none, DueDate := none, DueDateZh := none }

/-- A worksheet row with a parseable date and an unparseable amount cell. -/
def goodRow : XlsxRow :=
  { ID := none, Date := some "2024-03-05", DateZh := none,
    Borrower := some "Dana", BorrowerZh := none,
    Category := none, CategoryZh := none, Tags := some "a, b", TagsZh := none,
    Status := none, StatusZh := some "还款",
    Amount := some (.str "abc"), AmountZh := none,
    Note := none, NoteZh := none, DueDate := none, DueDateZh := none }

end Views

/-! Concrete sample data used by the witness statements. -/

def acctA : Account :=
  { id := "a1", name := "Alpha", avatarColor := "bg-blue-500", isDefault := some true }

def acctB : Account :=
  { id := "a2", name := "Beta", avatarColor := "bg-red-500", isDefault := some false }

def sampleSettings : AppSettings :=
  { currency := "$", dateFormat := "YYYY-MM-DD", language := "en", categories := ["Personal"] }

def txLend : Transaction :=
  { id := "t1", accountId := "a1", borrower := "Alice", amount := 100,
    date := "2024-01-01T00:00:00.000Z", dueDate := none, type := "LEND",
    note := "", category := "Personal", tags := some [] }

def txRepay : Transaction :=
  { id := "t2", accountId := "a1", borrower := "Alice", amount := 140,
    date := "2024-01-02T00:00:00.000Z", dueDate := none, type := "REPAYMENT",
    note := "", category := "Personal", tags := some ["friend"] }

def txOther : Transaction :=
  { id := "t3", accountId := "a2", borrower := "Bob", amount := 50,
    date := "2024-01-03T00:00:00.000Z", dueDate := none, type := "LEND",
    note := "", category := "Personal", tags := some [] }

def sampleState : AppState :=
  { accounts := [acctA, acctB], currentAccountId := "a1",
    transactions := [txLend, txRepay, txOther], settings := sampleSettings }

/-- A hydrated clean cache: snapshot equal to the persisted baseline. -/
def cleanCache : App.CacheState :=
  { snapshot := sampleState, lastPersisted := sampleState, isDirty := false }

/-- A snapshot whose only transaction carries an id but no tags field. -/
def cexSnapshot : AppState :=
  { accounts := [acctA], currentAccountId := "a1",
    transactions := [{ id := "t1", accountId := "a1", borrower := "Alice", amount := 5,
                       date := "2024-01-01T00:00:00.000Z", dueDate := none, type := "LEND",
                       note := "", category := "Personal", tags := none }],
    settings := sampleSettings }

/-- A hydrated dirty cache: pending snapshot differs from the baseline. -/
def dirtyCache : App.CacheState :=
  { snapshot := cexSnapshot, lastPersisted := sampleState, isDirty := true }

/-- An imported transaction that carries the id of `txLend` but no
`accountId`, with different content. -/
def txImport : Transaction :=
  { id := "t1", accountId := "", borrower := "Alice", amount := 70,
    date := "2024-02-01T00:00:00.000Z", dueDate := none, type := "LEND",
    note := "updated", category := "Personal", tags := some ["new"] }

/-- An imported transaction without an id and without an `accountId`. -/
def txNoId : Transaction :=
  { id := "", accountId := "", borrower := "Carol", amount := 30,
    date := "2024-02-02T00:00:00.000Z", dueDate := none, type := "LEND",
    note := "", category := "Personal", tags := some [] }

/-! ### Supporting lemmas -/

theorem runOps_ok_eq (fail : Nat → Bool) :
    ∀ (ops : List Main.DbOp) (n : Nat) (s s2 : Main.Store) (m : Nat),
      Main.runOps fail ops n s = .ok (s2, m) →
      s2 = ops.foldl (fun st op => op.app st) s := by
  intro ops
  induction ops with
  | nil =>
      intro n s s2 m h
      simp [Main.runOps] at h
      simp [h.1]
  | cons op ops ih =>
      intro n s s2 m h
      by_cases hf : fail n
      · simp [Main.runOps, hf] at h
      · simp only [Main.runOps, hf, if_false, Bool.false_eq_true] at h
        simpa using ih _ _ _ _ h

theorem runOps_nofail :
    ∀ (ops : List Main.DbOp) (n : Nat) (s : Main.Store),
      Main.runOps (fun _ => false) ops n s =
        .ok (ops.foldl (fun st op => op.app st) s, n + ops.length) := by
  intro ops
  induction ops with
  | nil => intro n s; simp [Main.runOps]
  | cons op ops ih =>
      intro n s
      simp only [Main.runOps, Bool.false_eq_true, if_false, List.foldl_cons, ih,
        List.length_cons]
      have h : n + 1 + ops.length = n + (ops.length + 1) := by omega
      rw [h]

theorem foldl_insertAccounts (l : List Account) :
    ∀ s : Main.Store,
      l.foldl (fun st a => (Main.DbOp.insertAccount (Main.accountToRow a)).app st) s
        = { s with accounts := s.accounts ++ l.map Main.accountToRow } := by
  induction l with
  | nil => intro s; simp
  | cons a l ih =>
      intro s
      rw [List.foldl_cons, ih]
      simp [Main.DbOp.app, List.append_assoc]

theorem foldl_insertTransactions (l : List Transaction) :
    ∀ s : Main.Store,
      l.foldl (fun st t => (Main.DbOp.insertTransaction (Main.serializeTransaction t)).app st) s
        = { s with transactions := s.transactions ++ l.map Main.serializeTransaction } := by
  induction l with
  | nil => intro s; simp
  | cons t l ih =>
      intro s
      rw [List.foldl_cons, ih]
      simp [Main.DbOp.app, List.append_assoc]

theorem applyChangesOps_foldl (state : AppState) (s : Main.Store) :
    (Main.applyChangesOps state).foldl (fun st op => op.app st) s = Main.flushedStore state := by
  simp only [Main.applyChangesOps, List.foldl_append, List.foldl_cons, List.foldl_nil,
    List.foldl_map]
  rw [foldl_insertAccounts, foldl_insertTransactions]
  simp [Main.DbOp.app, Main.flushedStore]

/-! ### Claim C1 -/

/-- C1: the gateway flush writes all four snapshot parts (the accounts table,
the active-account pointer, the settings blob and the transactions table)
inside one storage transaction: for every failure oracle, either every
statement succeeds and the store holds exactly the flushed snapshot, or the
error propagates to the caller and the store keeps its exact pre-call
contents — no execution leaves a collection partially replaced. -/
theorem c1_flush_transactional (fail : Nat → Bool) (state : AppState) (s : Main.Store) :
    Main.applyChanges fail state s = (.ok (), Main.flushedStore state) ∨
    Main.applyChanges fail state s = (.error (), s) := by
  unfold Main.applyChanges Main.withTransaction
  cases h : Main.runOps fail (Main.applyChangesOps state) 0 s with
  | error e => right; rfl
  | ok p =>
      left
      obtain ⟨s2, m⟩ := p
      have h2 := runOps_ok_eq fail _ _ _ _ _ h
      rw [applyChangesOps_foldl] at h2
      simp [h2]

/-! ### Claim C9 -/

/-- C9: starting from empty storage, the load pipeline (schema init, seeding,
gateway load, renderer normalization) returns exactly one seeded account with
the default name, `currentAccountId` equal to that account's id, an empty
transaction list, and default settings whose categories are the fixed
non-empty seed list. -/
theorem c9_load_from_empty_storage :
    loadFromEmptyStorage =
      { accounts := [{ id := "default_account", name := "Main Account",
                       avatarColor := "bg-ios-blue", isDefault := some true }],
        currentAccountId := "default_account",
        transactions := [],
        settings := { currency := "Â¥", dateFormat := "YYYY-MM-DD",
                      language := "zh", categories := Storage.DEFAULT_CATEGORIES } } ∧
    Storage.DEFAULT_CATEGORIES ≠ [] := by
  constructor
  · rfl
  · decide

/-! ### Claim C8 -/

/-- C8: when exactly one account exists, a request to delete it is rejected
(no confirmation modal opens) and the state is untouched: the account count
stays 1 and no transactions are removed. -/
theorem c8_last_account_guard (accounts : List Account) (cur : String)
    (txs : List Transaction) (tid : String) (h1 : accounts.length = 1) :
    App.requestDeleteAccount accounts tid = none ∧
    App.stateAfterAccountDeleteRequest accounts cur txs tid = (accounts, cur, txs) ∧
    (App.stateAfterAccountDeleteRequest accounts cur txs tid).1.length = 1 ∧
    (App.stateAfterAccountDeleteRequest accounts cur txs tid).2.2 = txs := by
  have hreq : App.requestDeleteAccount accounts tid = none := by
    simp [App.requestDeleteAccount, h1]
  refine ⟨hreq, ?_, ?_, ?_⟩ <;>
    simp [App.stateAfterAccountDeleteRequest, hreq, h1]

/-- Witness for C8 at a concrete one-account state. -/
theorem c8_witness :
    App.requestDeleteAccount [acctA] "a1" = none ∧
    App.stateAfterAccountDeleteRequest [acctA] "a1" [txLend] "a1" = ([acctA], "a1", [txLend]) ∧
    (App.stateAfterAccountDeleteRequest [acctA] "a1" [txLend] "a1").1.length = 1 ∧
    (App.stateAfterAccountDeleteRequest [acctA] "a1" [txLend] "a1").2.2 = [txLend] :=
  c8_last_account_guard [acctA] "a1" [txLend] "a1" (by decide)

/-! ### Claim C5 -/

/-- C5: dirtiness is decided by value comparison of serialized snapshots.  A
mutation whose snapshot equals the last-persisted baseline leaves the dirty
flag as it was and triggers no persist call; a mutation whose snapshot
differs from the baseline sets the dirty flag. -/
theorem c5_dirty_by_value (c : App.CacheState) (snap : AppState) (persistOk : Bool) :
    (snap = c.lastPersisted →
      (App.trackChanges c snap).isDirty = c.isDirty ∧
      (App.mutationStep c snap persistOk).2 = false) ∧
    (snap ≠ c.lastPersisted → (App.trackChanges c snap).isDirty = true) := by
  constructor
  · intro h
    constructor
    · simp [App.trackChanges, h]
    · simp only [App.mutationStep, App.trackChanges, h, ne_eq, not_true_eq_false,
        if_false]
      cases hd : c.isDirty <;> simp [hd, App.flushState, h]
  · intro h
    simp [App.trackChanges, h]

/-- Witness for C5: a no-op mutation on a clean concrete cache stays clean
with no persist call; a differing mutation marks dirty. -/
theorem c5_witness :
    ((App.trackChanges cleanCache sampleState).isDirty = false ∧
      (App.mutationStep cleanCache sampleState true).2 = false) ∧
    (App.trackChanges cleanCache cexSnapshot).isDirty = true := by
  constructor
  · have h := (c5_dirty_by_value cleanCache sampleState true).1 rfl
    exact ⟨h.1, h.2⟩
  · exact (c5_dirty_by_value cleanCache cexSnapshot true).2 (by decide)

/-! ### Claim C6 -/

/-- C6: a failing flush attempt leaves the cache exactly as it was — the
baseline keeps its prior value and the dirty flag remains set — and the
caught error is not rethrown (`flushState` returns normally); the still-dirty
snapshot is then persisted by the next successful `flushState` invocation
(periodic tick or mutation-triggered). -/
theorem c6_flush_failure (c : App.CacheState) (hd : c.isDirty = true)
    (hne : c.snapshot ≠ c.lastPersisted) :
    App.flushState c false false = (c, true) ∧
    App.flushState (App.flushState c false false).1 false true =
      ({ c with lastPersisted := c.snapshot, isDirty := false }, true) := by
  have h1 : App.flushState c false false = (c, true) := by
    simp [App.flushState, hd, hne]
  refine ⟨h1, ?_⟩
  rw [h1]
  simp [App.flushState, hd, hne]

/-- Witness for C6 at a concrete dirty cache. -/
theorem c6_witness :
    App.flushState dirtyCache false false = (dirtyCache, true) ∧
    App.flushState (App.flushState dirtyCache false false).1 false true =
      ({ dirtyCache with lastPersisted := dirtyCache.snapshot, isDirty := false }, true) :=
  c6_flush_failure dirtyCache rfl (by decide)

/-! ### Claim C7 -/

/-- C7: deleting an account `A` from a well-formed state (at least two
accounts, distinct account ids, every transaction referencing an existing
account) removes every transaction whose `accountId` is `A.id`, leaves no
transaction referencing a missing account, and — when `A` was the active
account — repoints the active-account pointer to the first remaining
account. -/
theorem c7_account_delete_cascade (accounts : List Account) (cur : String)
    (txs : List Transaction) (A : Account)
    (hlen : 2 ≤ accounts.length) (hmem : A ∈ accounts)
    (hnodup : (accounts.map (fun a => a.id)).Nodup)
    (href : ∀ t ∈ txs, ∃ b ∈ accounts, t.accountId = b.id) :
    ∃ newAccounts newCur newTxs,
      App.performDeleteAccount accounts cur txs A.id = some (newAccounts, newCur, newTxs) ∧
      newTxs = txs.filter (fun t => t.accountId ≠ A.id) ∧
      (∀ t ∈ newTxs, t.accountId ≠ A.id) ∧
      (∀ t ∈ newTxs, ∃ b ∈ newAccounts, t.accountId = b.id) ∧
      (cur = A.id → ∃ a rest, newAccounts = a :: rest ∧ newCur = a.id) := by
  have hex : ∃ b ∈ accounts, b.id ≠ A.id := by
    obtain ⟨x, l1, rfl⟩ : ∃ x l, accounts = x :: l := by
      cases accounts with
      | nil => simp at hlen
      | cons x l => exact ⟨x, l, rfl⟩
    obtain ⟨y, l2, rfl⟩ : ∃ y l, l1 = y :: l := by
      cases l1 with
      | nil => simp at hlen
      | cons y l => exact ⟨y, l, rfl⟩
    by_cases hx : x.id = A.id
    · refine ⟨y, by simp, ?_⟩
      intro hy
      have h2 := hnodup
      simp at h2
      exact h2.1.1 (hx.trans hy.symm)
    · exact ⟨x, by simp, hx⟩
  obtain ⟨b, hbmem, hbne⟩ := hex
  have hbf : b ∈ accounts.filter (fun a => a.id ≠ A.id) := by
    simp only [List.mem_filter, decide_eq_true_eq]
    exact ⟨hbmem, hbne⟩
  have hrefNew : ∀ t ∈ txs.filter (fun t => t.accountId ≠ A.id),
      ∃ c ∈ accounts.filter (fun a => a.id ≠ A.id), t.accountId = c.id := by
    intro t ht
    have ht2 := List.mem_filter.mp ht
    obtain ⟨c, hcmem, hceq⟩ := href t ht2.1
    refine ⟨c, ?_, hceq⟩
    simp only [List.mem_filter, decide_eq_true_eq]
    refine ⟨hcmem, ?_⟩
    intro hcid
    have hne2 : t.accountId ≠ A.id := by simpa using ht2.2
    exact hne2 (by rw [hceq, hcid])
  have hdropped : ∀ t ∈ txs.filter (fun t => t.accountId ≠ A.id), t.accountId ≠ A.id := by
    intro t ht
    have ht2 := List.mem_filter.mp ht
    simpa using ht2.2
  by_cases hcur : cur = A.id
  · obtain ⟨a, rest, hrw⟩ : ∃ a rest, accounts.filter (fun a => a.id ≠ A.id) = a :: rest := by
      cases h : accounts.filter (fun a => a.id ≠ A.id) with
      | nil => rw [h] at hbf; simp at hbf
      | cons a rest => exact ⟨a, rest, rfl⟩
    have hdef : App.performDeleteAccount accounts cur txs A.id =
        some (a :: rest, a.id, txs.filter (fun t => t.accountId ≠ A.id)) := by
      simp only [App.performDeleteAccount, hcur, hrw]
      simp
    exact ⟨a :: rest, a.id, txs.filter (fun t => t.accountId ≠ A.id), hdef, rfl,
      hdropped, hrw ▸ hrefNew, fun _ => ⟨a, rest, rfl, rfl⟩⟩
  · refine ⟨accounts.filter (fun a => a.id ≠ A.id), cur,
      txs.filter (fun t => t.accountId ≠ A.id), ?_, rfl, hdropped, hrefNew,
      fun h => absurd h hcur⟩
    simp [App.performDeleteAccount, hcur]

/-- Witness for C7: deleting the active account `acctA` out of two accounts,
with transactions on both. -/
theorem c7_witness :
    ∃ newAccounts newCur newTxs,
      App.performDeleteAccount [acctA, acctB] "a1" [txLend, txRepay, txOther] acctA.id
        = some (newAccounts, newCur, newTxs) ∧
      newTxs = [txLend, txRepay, txOther].filter (fun t => t.accountId ≠ acctA.id) ∧
      (∀ t ∈ newTxs, t.accountId ≠ acctA.id) ∧
      (∀ t ∈ newTxs, ∃ b ∈ newAccounts, t.accountId = b.id) ∧
      ("a1" = acctA.id → ∃ a rest, newAccounts = a :: rest ∧ newCur = a.id) :=
  c7_account_delete_cascade [acctA, acctB] "a1" [txLend, txRepay, txOther] acctA
    (by decide) (by decide) (by decide) (by decide)

/-! ### Claim C2 -/

theorem rowToAccount_accountToRow (a : Account) (h : a.isDefault.isSome = true) :
    Main.rowToAccount (Main.accountToRow a) = a := by
  obtain ⟨b, hb⟩ := Option.isSome_iff_exists.mp h
  cases a
  cases b <;> simp_all [Main.rowToAccount, Main.accountToRow, jsTruthyBool]

theorem deserialize_serialize (t : Transaction) (h : t.tags.isSome = true) :
    Main.deserializeTransaction (Main.serializeTransaction t) = t := by
  obtain ⟨l, hl⟩ := Option.isSome_iff_exists.mp h
  cases t
  simp_all [Main.deserializeTransaction, Main.serializeTransaction]

theorem insertByDateDesc_perm (r : Main.TransactionRow) :
    ∀ l : List Main.TransactionRow, (Main.insertByDateDesc r l).Perm (r :: l) := by
  intro l
  induction l with
  | nil => simp [Main.insertByDateDesc]
  | cons x xs ih =>
      by_cases h : x.date < r.date
      · simp [Main.insertByDateDesc, h]
      · simp only [Main.insertByDateDesc, h, if_false]
        exact (ih.cons x).trans (List.Perm.swap r x xs)

theorem orderByDateDesc_perm (rows : List Main.TransactionRow) :
    (Main.orderByDateDesc rows).Perm rows := by
  induction rows with
  | nil => simp [Main.orderByDateDesc]
  | cons r rows ih =>
      have h1 : Main.orderByDateDesc (r :: rows)
          = Main.insertByDateDesc r (Main.orderByDateDesc rows) := rfl
      rw [h1]
      exact (insertByDateDesc_perm r (Main.orderByDateDesc rows)).trans (ih.cons r)

/-- C2 (amended): flushing a snapshot `S` through the gateway succeeds when
no statement fails, and loading afterwards returns the same accounts, the
same active-account pointer, the same settings and the same transaction set
(as a multiset; the gateway re-sorts by date) — provided every account
carries its `isDefault` flag and every transaction carries its tags list.
Absent tags come back as `some []` and absent `isDefault` comes back as
`some false`, which is what forces the provisos. -/
theorem c2_flush_load_roundtrip (S : AppState) (s0 : Main.Store)
    (hids : ∀ t ∈ S.transactions, t.id ≠ "")
    (htags : ∀ t ∈ S.transactions, t.tags.isSome = true)
    (hdef : ∀ a ∈ S.accounts, a.isDefault.isSome = true) :
    Main.applyChanges (fun _ => false) S s0 = (.ok (), Main.flushedStore S) ∧
    (Main.loadAppState (Main.flushedStore S)).accounts = S.accounts ∧
    (Main.loadAppState (Main.flushedStore S)).currentAccountId = some S.currentAccountId ∧
    (Main.loadAppState (Main.flushedStore S)).settings = some S.settings ∧
    (Main.loadAppState (Main.flushedStore S)).transactions.Perm S.transactions := by
  refine ⟨?_, ?_, rfl, rfl, ?_⟩
  · unfold Main.applyChanges Main.withTransaction
    rw [runOps_nofail]
    rw [applyChangesOps_foldl]
  · show (S.accounts.map Main.accountToRow).map Main.rowToAccount = S.accounts
    rw [List.map_map]
    have h := List.map_congr_left (l := S.accounts)
      (f := Main.rowToAccount ∘ Main.accountToRow) (g := id)
      (fun a ha => rowToAccount_accountToRow a (hdef a ha))
    rw [h, List.map_id]
  · show ((Main.orderByDateDesc (S.transactions.map Main.serializeTransaction)).map
        Main.deserializeTransaction).Perm S.transactions
    have hp := (orderByDateDesc_perm (S.transactions.map Main.serializeTransaction)).map
      Main.deserializeTransaction
    refine hp.trans ?_
    rw [List.map_map]
    have h := List.map_congr_left (l := S.transactions)
      (f := Main.deserializeTransaction ∘ Main.serializeTransaction) (g := id)
      (fun t ht => deserialize_serialize t (htags t ht))
    rw [h, List.map_id]

/-- Witness for C2 at the concrete sample snapshot and the empty store. -/
theorem c2_witness :
    Main.applyChanges (fun _ => false) sampleState Main.emptyStore
      = (.ok (), Main.flushedStore sampleState) ∧
    (Main.loadAppState (Main.flushedStore sampleState)).accounts = sampleState.accounts ∧
    (Main.loadAppState (Main.flushedStore sampleState)).currentAccountId
      = some sampleState.currentAccountId ∧
    (Main.loadAppState (Main.flushedStore sampleState)).settings = some sampleState.settings ∧
    (Main.loadAppState (Main.flushedStore sampleState)).transactions.Perm
      sampleState.transactions :=
  c2_flush_load_roundtrip sampleState Main.emptyStore (by decide) (by decide) (by decide)

/-- Counterexample to C2 as frozen: in `cexSnapshot` every transaction
carries an id, yet the loaded transaction set differs from the stored one —
the transaction without a tags field comes back carrying `some []`. -/
theorem c2_counterexample :
    (∀ t ∈ cexSnapshot.transactions, t.id ≠ "") ∧
    ¬ (Main.loadAppState (Main.flushedStore cexSnapshot)).transactions.Perm
        cexSnapshot.transactions := by
  constructor
  · decide
  · decide

/-! ### Claim C3: JS-map lemmas -/

theorem jsHasKey_iff {α : Type} (m : List (String × α)) (k : String) :
    jsHasKey m k = true ↔ k ∈ jsKeys m := by
  simp only [jsHasKey, jsKeys, List.any_eq_true, decide_eq_true_eq, List.mem_map]

theorem jsMapGet?_eq_none {α : Type} (k : String) :
    ∀ m : List (String × α), k ∉ jsKeys m → jsMapGet? m k = none := by
  intro m
  induction m with
  | nil => intro _; rfl
  | cons p m ih =>
      intro h
      rw [show jsKeys (p :: m) = p.1 :: jsKeys m from rfl] at h
      have h1 : ¬ p.1 = k := fun he => h (by simp [he])
      have h2 : k ∉ jsKeys m := fun he => h (by simp [he])
      simp [jsMapGet?, h1, ih h2]

theorem jsMapGet?_map_irrel {α : Type} (k k2 : String) (v : α) (h : k2 ≠ k) :
    ∀ m : List (String × α),
      jsMapGet? (m.map (fun q => if q.1 = k then (k, v) else q)) k2 = jsMapGet? m k2 := by
  intro m
  induction m with
  | nil => rfl
  | cons q m ih =>
      by_cases hq : q.1 = k
      · have hkk2 : ¬ (k = k2) := fun he => h he.symm
        have hq2 : ¬ (q.1 = k2) := by rw [hq]; exact hkk2
        simp [jsMapGet?, hq, hkk2, hq2, ih]
      · rcases eq_or_ne q.1 k2 with h2 | h2
        · simp only [List.map_cons, if_neg hq, jsMapGet?, if_pos h2]
        · simp only [List.map_cons, if_neg hq, jsMapGet?, if_neg h2, ih]

theorem jsMapGet?_set {α : Type} (k k2 : String) (v : α) :
    ∀ m : List (String × α),
      jsMapGet? (jsMapSet m k v) k2 = if k2 = k then some v else jsMapGet? m k2 := by
  intro m
  induction m with
  | nil =>
      rcases eq_or_ne k2 k with h | h
      · simp [jsMapSet, jsHasKey, jsMapGet?, h]
      · simp [jsMapSet, jsHasKey, jsMapGet?, h, Ne.symm h]
  | cons p m ih =>
      by_cases hpk : p.1 = k
      · have hs : jsMapSet (p :: m) k v
            = (p :: m).map (fun q => if q.1 = k then (k, v) else q) := by
          simp [jsMapSet, jsHasKey, hpk]
        rw [hs]
        rcases eq_or_ne k2 k with h2 | h2
        · subst h2; simp [jsMapGet?, hpk]
        · have hkk2 : ¬ (k = k2) := fun he => h2 he.symm
          have hp2 : ¬ (p.1 = k2) := by rw [hpk]; exact hkk2
          simp only [List.map_cons, if_pos hpk, jsMapGet?, hkk2, if_false, h2, hp2]
          exact jsMapGet?_map_irrel k k2 v h2 m
      · have hs : jsMapSet (p :: m) k v = p :: jsMapSet m k v := by
          by_cases hm : (m.any fun q => decide (q.1 = k)) = true <;>
            simp [jsMapSet, jsHasKey, List.any_cons, hpk, hm]
        rw [hs]
        rcases eq_or_ne p.1 k2 with h2 | h2
        · have hk2k : ¬ (k2 = k) := by
            intro he; exact hpk (h2.trans he)
          simp [jsMapGet?, h2, hk2k]
        · simp [jsMapGet?, h2, ih]

theorem jsKeys_set {α : Type} (m : List (String × α)) (k : String) (v : α) :
    jsKeys (jsMapSet m k v) = if jsHasKey m k then jsKeys m else jsKeys m ++ [k] := by
  by_cases h : jsHasKey m k
  · simp only [jsMapSet, h, if_true, jsKeys, List.map_map]
    apply List.map_congr_left
    intro q _
    by_cases hqk : q.1 = k <;> simp [hqk]
  · simp [jsMapSet, h, jsKeys]

theorem jsKeys_set_nodup {α : Type} (m : List (String × α)) (k : String) (v : α)
    (h : (jsKeys m).Nodup) : (jsKeys (jsMapSet m k v)).Nodup := by
  rw [jsKeys_set]
  by_cases hm : jsHasKey m k
  · simpa [hm] using h
  · have hk : k ∉ jsKeys m := fun hmem => hm ((jsHasKey_iff m k).mpr hmem)
    simp [hm, List.nodup_append, h, hk]

theorem mem_jsKeys_set {α : Type} (m : List (String × α)) (k k2 : String) (v : α)
    (h : k2 ∈ jsKeys m) : k2 ∈ jsKeys (jsMapSet m k v) := by
  rw [jsKeys_set]
  by_cases hm : jsHasKey m k <;> simp [hm, h]

theorem self_mem_jsKeys_set {α : Type} (m : List (String × α)) (k : String) (v : α) :
    k ∈ jsKeys (jsMapSet m k v) := by
  rw [jsKeys_set]
  by_cases hm : jsHasKey m k
  · simpa [hm] using (jsHasKey_iff m k).mp hm
  · simp [hm]

theorem jsMap_ext :
    ∀ (m1 m2 : List (String × Transaction)), (jsKeys m1).Nodup → jsKeys m1 = jsKeys m2 →
      (∀ k, jsMapGet? m1 k = jsMapGet? m2 k) → m1 = m2 := by
  intro m1
  induction m1 with
  | nil =>
      intro m2 _ hk _
      cases m2 with
      | nil => rfl
      | cons q m2 => simp [jsKeys] at hk
  | cons p m ih =>
      intro m2 hnd hk hget
      cases m2 with
      | nil => simp [jsKeys] at hk
      | cons q m2 =>
          simp only [jsKeys, List.map_cons, List.cons.injEq] at hk
          have hpq1 : p.1 = q.1 := hk.1
          have hval : some p.2 = some q.2 := by
            have h := hget p.1
            rw [show jsMapGet? (p :: m) p.1 = some p.2 by simp [jsMapGet?],
              show jsMapGet? (q :: m2) p.1 = some q.2 by simp [jsMapGet?, hpq1.symm]] at h
            exact h
          have hpq : p = q := Prod.ext hpq1 (Option.some.injEq _ _ ▸ hval)
          have hnd2 : (jsKeys m).Nodup := by
            simp only [jsKeys, List.map_cons, List.nodup_cons] at hnd
            exact hnd.2
          have hp1m : p.1 ∉ jsKeys m := by
            simp only [jsKeys, List.map_cons, List.nodup_cons] at hnd
            exact hnd.1
          have hkeq : jsKeys m = jsKeys m2 := hk.2
          have hp1m2 : p.1 ∉ jsKeys m2 := hkeq ▸ hp1m
          have htail : ∀ k, jsMapGet? m k = jsMapGet? m2 k := by
            intro k
            rcases eq_or_ne k p.1 with rfl | hkp
            · rw [jsMapGet?_eq_none _ m hp1m, jsMapGet?_eq_none _ m2 hp1m2]
            · have h := hget k
              have hq1k : ¬ q.1 = k := by rw [← hpq1]; exact fun he => hkp he.symm
              have hp1k : ¬ p.1 = k := fun he => hkp he.symm
              simpa [jsMapGet?, hp1k, hq1k] using h
          rw [hpq, ih m2 hnd2 hkeq htail]

theorem WfTxMap_set (m : List (String × Transaction)) (t : Transaction)
    (h : WfTxMap m) : WfTxMap (jsMapSet m t.id t) := by
  constructor
  · exact jsKeys_set_nodup m t.id t h.1
  · intro p hp
    by_cases hm : jsHasKey m t.id
    · simp only [jsMapSet, hm, if_true, List.mem_map] at hp
      obtain ⟨q, hq, he⟩ := hp
      by_cases hqk : q.1 = t.id
      · rw [← he]; simp [hqk]
      · rw [← he]; simp only [hqk, if_false]; exact h.2 q hq
    · have hs : jsMapSet m t.id t = m ++ [(t.id, t)] := by simp [jsMapSet, hm]
      rw [hs] at hp
      rcases List.mem_append.mp hp with hp2 | hp2
      · exact h.2 p hp2
      · rw [List.mem_singleton] at hp2
        rw [hp2]

theorem WfTxMap_setFold (ts : List Transaction) :
    ∀ m : List (String × Transaction), WfTxMap m → WfTxMap (setFold m ts) := by
  induction ts with
  | nil => intro m h; exact h
  | cons t ts ih => intro m h; exact ih _ (WfTxMap_set m t h)

theorem WfTxMap_nil : WfTxMap [] := ⟨List.nodup_nil, by intro p hp; simp at hp⟩

theorem setFold_cons (m : List (String × Transaction)) (t : Transaction)
    (ts : List Transaction) : setFold m (t :: ts) = setFold (jsMapSet m t.id t) ts := rfl

theorem mem_jsKeys_setFold {k : String} (ts : List Transaction) :
    ∀ m : List (String × Transaction), k ∈ jsKeys m → k ∈ jsKeys (setFold m ts) := by
  induction ts with
  | nil => intro m h; exact h
  | cons t ts ih => intro m h; exact ih _ (mem_jsKeys_set m t.id k t h)

theorem ops_mem_jsKeys_setFold (ts : List Transaction) :
    ∀ (m : List (String × Transaction)) (t : Transaction), t ∈ ts →
      t.id ∈ jsKeys (setFold m ts) := by
  induction ts with
  | nil => intro m t ht; simp at ht
  | cons u ts ih =>
      intro m t ht
      rcases List.mem_cons.mp ht with rfl | ht2
      · exact mem_jsKeys_setFold ts _ (self_mem_jsKeys_set m t.id t)
      · exact ih _ t ht2

theorem jsKeys_setFold_of_mem (ts : List Transaction) :
    ∀ m : List (String × Transaction), (∀ t ∈ ts, t.id ∈ jsKeys m) →
      jsKeys (setFold m ts) = jsKeys m := by
  induction ts with
  | nil => intro m _; rfl
  | cons t ts ih =>
      intro m h
      have hk : jsHasKey m t.id = true := (jsHasKey_iff m t.id).mpr (h t (by simp))
      rw [setFold_cons, ih]
      · rw [jsKeys_set, if_pos hk]
      · intro u hu
        rw [jsKeys_set, if_pos hk]
        exact h u (by simp [hu])

theorem jsKeys_setFold_nodup (ts : List Transaction) :
    ∀ m : List (String × Transaction), (jsKeys m).Nodup → (jsKeys (setFold m ts)).Nodup := by
  induction ts with
  | nil => intro m h; exact h
  | cons t ts ih => intro m h; exact ih _ (jsKeys_set_nodup m t.id t h)

theorem jsMapGet?_setFold (ts : List Transaction) :
    ∀ (m : List (String × Transaction)) (k : String),
      jsMapGet? (setFold m ts) k = lastIdHit ts k (jsMapGet? m k) := by
  induction ts with
  | nil => intro m k; rfl
  | cons t ts ih =>
      intro m k
      rw [setFold_cons, ih]
      rw [show lastIdHit (t :: ts) k (jsMapGet? m k)
          = lastIdHit ts k (if t.id = k then some t else jsMapGet? m k) from rfl]
      congr 1
      rw [jsMapGet?_set]
      rcases eq_or_ne k t.id with h | h
      · simp [h]
      · have h2 : ¬ t.id = k := fun he => h he.symm
        simp [h, h2]

theorem lastIdHit_append (ts : List Transaction) (t : Transaction) (k : String)
    (acc : Option Transaction) :
    lastIdHit (ts ++ [t]) k acc = if t.id = k then some t else lastIdHit ts k acc := by
  by_cases h : t.id = k <;> simp [lastIdHit, List.foldl_append, h]

theorem lastIdHit_idem (ts : List Transaction) (k : String) :
    ∀ acc, lastIdHit ts k (lastIdHit ts k acc) = lastIdHit ts k acc := by
  induction ts using List.reverseRecOn with
  | nil => intro acc; rfl
  | append_singleton ts t ih =>
      intro acc
      rw [lastIdHit_append, lastIdHit_append]
      by_cases h : t.id = k
      · simp [h]
      · simp [h, ih]

theorem setFold_setFold (ts : List Transaction) (m : List (String × Transaction))
    (hnd : (jsKeys m).Nodup) :
    setFold (setFold m ts) ts = setFold m ts := by
  apply jsMap_ext
  · exact jsKeys_setFold_nodup ts _ (jsKeys_setFold_nodup ts m hnd)
  · exact jsKeys_setFold_of_mem ts _ (fun t ht => ops_mem_jsKeys_setFold ts m t ht)
  · intro k
    rw [jsMapGet?_setFold, jsMapGet?_setFold, lastIdHit_idem]

theorem setFold_values_of_wf :
    ∀ (m m0 : List (String × Transaction)), WfTxMap (m0 ++ m) →
      setFold m0 (m.map (fun p => p.2)) = m0 ++ m := by
  intro m
  induction m with
  | nil => intro m0 _; simp [setFold]
  | cons p m ih =>
      intro m0 hwf
      have hpid : p.2.id = p.1 := hwf.2 p (by simp)
      have hp1 : p.1 ∉ jsKeys m0 := by
        have h := hwf.1
        simp only [jsKeys, List.map_append, List.map_cons] at h
        have h2 := (List.nodup_append.mp h).2.2
        intro hmem
        exact h2 hmem (by simp)
      have hset : jsMapSet m0 p.2.id p.2 = m0 ++ [p] := by
        rw [hpid]
        have hk : ¬ jsHasKey m0 p.1 = true := fun hh => hp1 ((jsHasKey_iff m0 p.1).mp hh)
        simp [jsMapSet, hk]
      rw [List.map_cons, setFold_cons, hset, ih (m0 ++ [p]) (by simpa using hwf)]
      simp

theorem importAssign_id (cur : String) (tx : Transaction) :
    (App.importAssign cur tx).id = tx.id := by
  by_cases h : tx.accountId = "" <;> simp [App.importAssign, h]

theorem importStep_of_id (gen : Nat → String) (cur : String)
    (m : List (String × Transaction)) (n : Nat) (tx : Transaction) (h : tx.id ≠ "") :
    App.importStep gen cur (m, n) tx
      = (jsMapSet m (App.importAssign cur tx).id (App.importAssign cur tx), n) := by
  have hid : ¬ (App.importAssign cur tx).id = "" := by
    rw [importAssign_id]; exact h
  unfold App.importStep
  simp only [if_neg hid]

theorem importFold_fst (gen : Nat → String) (cur : String) :
    ∀ (imported : List Transaction) (m : List (String × Transaction)) (n : Nat),
      (∀ tx ∈ imported, tx.id ≠ "") →
      (imported.foldl (App.importStep gen cur) (m, n)).1
        = setFold m (imported.map (App.importAssign cur)) := by
  intro imported
  induction imported with
  | nil => intro m n _; rfl
  | cons tx imported ih =>
      intro m n h
      rw [List.foldl_cons, importStep_of_id gen cur m n tx (h tx (by simp)),
        ih _ n (fun u hu => h u (by simp [hu]))]
      rw [List.map_cons, setFold_cons]

theorem handleImport_eq_setFold (gen : Nat → String) (cur : String)
    (allTxs imported : List Transaction) (h : ∀ tx ∈ imported, tx.id ≠ "") :
    App.handleImportTransactions gen cur allTxs imported
      = (setFold (setFold [] allTxs) (imported.map (App.importAssign cur))).map
          (fun p => p.2) := by
  exact congrArg (fun l => List.map (fun p : String × Transaction => p.2) l)
    (importFold_fst gen cur imported (setFold [] allTxs) 0 h)

theorem map_snd_pair (ex : List Transaction) :
    List.map ((fun p : String × Transaction => p.2) ∘ fun t => (t.id, t)) ex = ex := by
  induction ex with
  | nil => rfl
  | cons t ts ih => simp only [List.map_cons, ih, Function.comp]

theorem setFold_nil_of_nodup (ex : List Transaction)
    (h : (ex.map (fun t => t.id)).Nodup) :
    setFold [] ex = ex.map (fun t => (t.id, t)) := by
  have hwf : WfTxMap ([] ++ ex.map (fun t => (t.id, t))) := by
    constructor
    · simpa [jsKeys, List.map_map] using h
    · intro p hp
      simp only [List.nil_append, List.mem_map] at hp
      obtain ⟨t, _, rfl⟩ := hp
      rfl
  have h2 := setFold_values_of_wf (ex.map (fun t => (t.id, t))) [] hwf
  rw [List.map_map, map_snd_pair] at h2
  simpa using h2

/-! ### Claim C3 -/

/-- C3: the import merge is keyed by transaction id.  (1) An imported
transaction whose id matches an existing one (distinct existing ids)
replaces that record and the total count is unchanged; (2) an imported
transaction without an id receives the freshly generated id (appended, when
the generated id is fresh); (3) an imported transaction without an
`accountId` is assigned the currently active account; (4) re-importing the
same id-carrying transaction list is idempotent: the merged list is
unchanged. -/
theorem c3_import_merge_keyed_by_id :
    (∀ (gen : Nat → String) (cur : String) (ex : List Transaction) (tx : Transaction),
        (ex.map (fun t => t.id)).Nodup → tx.id ≠ "" → tx.id ∈ ex.map (fun t => t.id) →
        App.handleImportTransactions gen cur ex [tx]
            = ex.map (fun u => if u.id = tx.id then App.importAssign cur tx else u) ∧
          (App.handleImportTransactions gen cur ex [tx]).length = ex.length) ∧
    (∀ (gen : Nat → String) (cur : String) (ex : List Transaction) (tx : Transaction),
        (ex.map (fun t => t.id)).Nodup → tx.id = "" → gen 0 ∉ ex.map (fun t => t.id) →
        App.handleImportTransactions gen cur ex [tx]
          = ex ++ [{ App.importAssign cur tx with id := gen 0 }]) ∧
    (∀ (cur : String) (tx : Transaction), tx.accountId = "" →
        (App.importAssign cur tx).accountId = cur) ∧
    (∀ (gen : Nat → String) (cur : String) (ex imported : List Transaction),
        (∀ tx ∈ imported, tx.id ≠ "") →
        App.handleImportTransactions gen cur
            (App.handleImportTransactions gen cur ex imported) imported
          = App.handleImportTransactions gen cur ex imported) := by
  refine ⟨?_, ?_, ?_, ?_⟩
  · intro gen cur ex tx hnd hid hmem
    have h1 : ∀ u ∈ [tx], u.id ≠ "" := by simpa using hid
    rw [handleImport_eq_setFold gen cur ex [tx] h1, setFold_nil_of_nodup ex hnd]
    rw [show (List.map (App.importAssign cur) [tx]) = [App.importAssign cur tx] from rfl]
    rw [show setFold (ex.map (fun t => (t.id, t))) [App.importAssign cur tx]
        = jsMapSet (ex.map (fun t => (t.id, t))) (App.importAssign cur tx).id
            (App.importAssign cur tx) from rfl]
    rw [importAssign_id]
    have hk : jsHasKey (ex.map (fun t => (t.id, t))) tx.id = true := by
      apply (jsHasKey_iff _ _).mpr
      simpa [jsKeys, List.map_map] using hmem
    rw [show jsMapSet (ex.map (fun t => (t.id, t))) tx.id (App.importAssign cur tx)
        = (ex.map (fun t => (t.id, t))).map
            (fun q => if q.1 = tx.id then (tx.id, App.importAssign cur tx) else q) from by
      simp [jsMapSet, hk]]
    constructor
    · rw [List.map_map, List.map_map]
      apply List.map_congr_left
      intro u _
      by_cases he : u.id = tx.id <;> simp [he]
    · simp
  · intro gen cur ex tx hnd hid hfresh
    have hid2 : (App.importAssign cur tx).id = "" := by rw [importAssign_id]; exact hid
    have hstep : App.handleImportTransactions gen cur ex [tx]
        = (jsMapSet (setFold [] ex) (gen 0)
            { App.importAssign cur tx with id := gen 0 }).map (fun p => p.2) := by
      unfold App.handleImportTransactions App.importStep
      simp only [List.foldl_cons, List.foldl_nil, hid2, if_pos]
      rfl
    rw [hstep, setFold_nil_of_nodup ex hnd]
    have hk : ¬ jsHasKey (ex.map (fun t => (t.id, t))) (gen 0) = true := by
      intro hh
      apply hfresh
      have := (jsHasKey_iff _ _).mp hh
      simpa [jsKeys, List.map_map] using this
    rw [show jsMapSet (ex.map (fun t => (t.id, t))) (gen 0)
          { App.importAssign cur tx with id := gen 0 }
        = ex.map (fun t => (t.id, t))
            ++ [(gen 0, { App.importAssign cur tx with id := gen 0 })] from by
      simp [jsMapSet, hk]]
    simp only [List.map_append, List.map_map, List.map_cons, List.map_nil]
    rw [map_snd_pair]
  · intro cur tx h
    simp [App.importAssign, h]
  · intro gen cur ex imported h
    have hB : WfTxMap (setFold [] ex) := WfTxMap_setFold ex [] WfTxMap_nil
    have hA : WfTxMap (setFold (setFold [] ex) (imported.map (App.importAssign cur))) :=
      WfTxMap_setFold _ _ hB
    rw [handleImport_eq_setFold gen cur ex imported h]
    rw [handleImport_eq_setFold gen cur _ imported h]
    rw [setFold_values_of_wf _ [] (by simpa using hA)]
    rw [List.nil_append]
    rw [setFold_setFold _ _ hB.1]

/-- Witness for C3: replace-by-id on a matching id, append with a minted id,
active-account assignment, and idempotent re-import, each at concrete data. -/
theorem c3_witness :
    (App.handleImportTransactions (fun _ => "g0") "a2" [txLend, txOther] [txImport]
        = [txLend, txOther].map
            (fun u => if u.id = txImport.id then App.importAssign "a2" txImport else u) ∧
      (App.handleImportTransactions (fun _ => "g0") "a2" [txLend, txOther] [txImport]).length
        = [txLend, txOther].length) ∧
    App.handleImportTransactions (fun _ => "g0") "a2" [txLend, txOther] [txNoId]
      = [txLend, txOther] ++ [{ App.importAssign "a2" txNoId with id := "g0" }] ∧
    (App.importAssign "a2" txNoId).accountId = "a2" ∧
    App.handleImportTransactions (fun _ => "g0") "a2"
        (App.handleImportTransactions (fun _ => "g0") "a2" [txLend, txOther] [txImport])
        [txImport]
      = App.handleImportTransactions (fun _ => "g0") "a2" [txLend, txOther] [txImport] :=
  ⟨c3_import_merge_keyed_by_id.1 (fun _ => "g0") "a2" [txLend, txOther] txImport
      (by decide) (by decide) (by decide),
    c3_import_merge_keyed_by_id.2.1 (fun _ => "g0") "a2" [txLend, txOther] txNoId
      (by decide) (by decide) (by decide),
    c3_import_merge_keyed_by_id.2.2.1 "a2" txNoId (by decide),
    c3_import_merge_keyed_by_id.2.2.2 (fun _ => "g0") "a2" [txLend, txOther] [txImport]
      (by decide)⟩

/-! ### Claim C10: aggregation lemmas -/

theorem jsMapGet?_borrowerFold {α : Type} (f : Option α → Transaction → α) :
    ∀ (ts : List Transaction) (m : List (String × α)) (k : String),
      jsMapGet?
          (ts.foldl (fun m t => jsMapSet m t.borrower (f (jsMapGet? m t.borrower) t)) m) k
        = (ts.filter (fun t => decide (t.borrower = k))).foldl
            (fun acc t => some (f acc t)) (jsMapGet? m k) := by
  intro ts
  induction ts with
  | nil => intro m k; rfl
  | cons t ts ih =>
      intro m k
      rw [List.foldl_cons, ih]
      by_cases h : t.borrower = k
      · rw [List.filter_cons_of_pos (by simpa using h), List.foldl_cons]
        subst h
        congr 1
        rw [jsMapGet?_set]
        simp
      · rw [List.filter_cons_of_neg (by simpa using h)]
        congr 1
        rw [jsMapGet?_set]
        exact if_neg (fun he => h he.symm)

theorem foldl_distLend_some (us : List Transaction) :
    ∀ v : Int, us.foldl (fun acc t => some (App.distLendStep acc t)) (some v)
      = some (v + (us.map (fun t => t.amount)).sum) := by
  induction us with
  | nil => intro v; simp
  | cons u us ih =>
      intro v
      rw [List.foldl_cons, show App.distLendStep (some v) u = v + u.amount from rfl, ih]
      simp [add_assoc]

theorem foldl_distLend_none (u : Transaction) (us : List Transaction) :
    (u :: us).foldl (fun acc t => some (App.distLendStep acc t)) none
      = some (((u :: us).map (fun t => t.amount)).sum) := by
  rw [List.foldl_cons, show App.distLendStep none u = 0 + u.amount from rfl,
    foldl_distLend_some]
  simp

theorem foldl_distRepay_some (us : List Transaction) :
    ∀ v : Int, us.foldl (fun acc t => some (App.distRepayStep acc t)) (some v)
      = some (us.foldl (fun c t => max 0 (c - t.amount)) v) := by
  induction us with
  | nil => intro v; rfl
  | cons u us ih =>
      intro v
      rw [List.foldl_cons, show App.distRepayStep (some v) u = max 0 (v - u.amount) from rfl,
        ih, List.foldl_cons]

theorem clampFold_eq (us : List Transaction) :
    ∀ v : Int, (∀ u ∈ us, 0 ≤ u.amount) → 0 ≤ v →
      us.foldl (fun c t => max 0 (c - t.amount)) v
        = max 0 (v - (us.map (fun t => t.amount)).sum) := by
  induction us with
  | nil =>
      intro v _ hv
      simp [max_eq_right hv]
  | cons u us ih =>
      intro v h hv
      rw [List.foldl_cons,
        ih (max 0 (v - u.amount)) (fun x hx => h x (by simp [hx])) (le_max_left 0 _)]
      have hu : 0 ≤ u.amount := h u (by simp)
      have hsum : 0 ≤ (us.map (fun t => t.amount)).sum := by
        apply List.sum_nonneg
        intro x hx
        obtain ⟨t, ht, rfl⟩ := List.mem_map.mp hx
        exact h t (by simp [ht])
      simp only [List.map_cons, List.sum_cons]
      rcases le_or_lt 0 (v - u.amount) with hc | hc
      · rw [max_eq_right hc]
        congr 1
        omega
      · rw [max_eq_left hc.le]
        rw [max_eq_left (by omega), max_eq_left (by omega)]

theorem borrowerStep_some_lent (today : String) (agg : Views.BorrowerAgg)
    (u : Transaction) :
    (Views.borrowerStep today (some agg) u).lent
      = if u.type = "LEND" then agg.lent + u.amount else agg.lent := by
  simp only [Views.borrowerStep, Option.getD_some]
  split_ifs <;> rfl

theorem borrowerStep_some_repaid (today : String) (agg : Views.BorrowerAgg)
    (u : Transaction) :
    (Views.borrowerStep today (some agg) u).repaid
      = if u.type = "LEND" then agg.repaid else agg.repaid + u.amount := by
  simp only [Views.borrowerStep, Option.getD_some]
  split_ifs <;> rfl

theorem borrowerStep_none_lent (today : String) (u : Transaction) :
    (Views.borrowerStep today none u).lent
      = if u.type = "LEND" then u.amount else 0 := by
  simp only [Views.borrowerStep, Option.getD_none]
  split_ifs <;> simp

theorem borrowerStep_none_repaid (today : String) (u : Transaction) :
    (Views.borrowerStep today none u).repaid
      = if u.type = "LEND" then 0 else u.amount := by
  simp only [Views.borrowerStep, Option.getD_none]
  split_ifs <;> simp

theorem viewFold_some (today : String) :
    ∀ us : List Transaction, ∀ agg : Views.BorrowerAgg,
      ∃ agg2, us.foldl (fun acc t => some (Views.borrowerStep today acc t)) (some agg)
          = some agg2 ∧
        agg2.lent = agg.lent
          + ((us.filter (fun t => decide (t.type = "LEND"))).map (fun t => t.amount)).sum ∧
        agg2.repaid = agg.repaid
          + ((us.filter (fun t => ¬ decide (t.type = "LEND"))).map (fun t => t.amount)).sum := by
  intro us
  induction us with
  | nil => intro agg; exact ⟨agg, rfl, by simp, by simp⟩
  | cons u us ih =>
      intro agg
      obtain ⟨agg2, he, hl, hr⟩ := ih (Views.borrowerStep today (some agg) u)
      refine ⟨agg2, by rw [List.foldl_cons]; exact he, ?_, ?_⟩
      · rw [hl, borrowerStep_some_lent]
        by_cases h : u.type = "LEND"
        · rw [List.filter_cons_of_pos (by simpa using h)]
          simp [h, add_assoc]
        · rw [List.filter_cons_of_neg (by simpa using h)]
          simp [h]
      · rw [hr, borrowerStep_some_repaid]
        by_cases h : u.type = "LEND"
        · rw [List.filter_cons_of_neg (by simpa using h)]
          simp [h]
        · rw [List.filter_cons_of_pos (by simpa using h)]
          simp [h, add_assoc]

theorem viewFold_none (today : String) (u : Transaction) (us : List Transaction) :
    ∃ agg2, (u :: us).foldl (fun acc t => some (Views.borrowerStep today acc t)) none
        = some agg2 ∧
      agg2.lent
        = (((u :: us).filter (fun t => decide (t.type = "LEND"))).map (fun t => t.amount)).sum ∧
      agg2.repaid
        = (((u :: us).filter (fun t => ¬ decide (t.type = "LEND"))).map
            (fun t => t.amount)).sum := by
  obtain ⟨agg2, he, hl, hr⟩ := viewFold_some today us (Views.borrowerStep today none u)
  refine ⟨agg2, by rw [List.foldl_cons]; exact he, ?_, ?_⟩
  · rw [hl, borrowerStep_none_lent]
    by_cases h : u.type = "LEND"
    · rw [List.filter_cons_of_pos (by simpa using h)]
      simp [h]
    · rw [List.filter_cons_of_neg (by simpa using h)]
      simp [h]
  · rw [hr, borrowerStep_none_repaid]
    by_cases h : u.type = "LEND"
    · rw [List.filter_cons_of_neg (by simpa using h)]
      simp [h]
    · rw [List.filter_cons_of_pos (by simpa using h)]
      simp [h]

theorem mem_of_jsMapGet? {α : Type} (k : String) (v : α) :
    ∀ m : List (String × α), jsMapGet? m k = some v → (k, v) ∈ m := by
  intro m
  induction m with
  | nil => intro h; simp [jsMapGet?] at h
  | cons p m ih =>
      intro h
      by_cases hp : p.1 = k
      · rw [show jsMapGet? (p :: m) k = some p.2 by simp [jsMapGet?, hp]] at h
        have hpe : p = (k, v) := Prod.ext hp (Option.some_inj.mp h)
        rw [← hpe]
        exact List.mem_cons_self p m
      · rw [show jsMapGet? (p :: m) k = jsMapGet? m k by simp [jsMapGet?, hp]] at h
        exact List.mem_cons_of_mem p (ih h)

theorem filter_not_lend_eq (us : List Transaction)
    (h : ∀ u ∈ us, u.type = "LEND" ∨ u.type = "REPAYMENT") :
    us.filter (fun t => ¬ decide (t.type = "LEND"))
      = us.filter (fun t => decide (t.type = "REPAYMENT")) := by
  apply List.filter_congr
  intro u hu
  rcases h u hu with h1 | h1 <;> simp [h1]

/-! ### Claim C10 -/

/-- C10: for every borrower appearing in the transaction list (amounts
non-negative per the data model, types well-formed), the dashboard
distribution aggregation yields the clamped value
`max 0 (lent - repaid)`, while the borrowers-view aggregation carries the
exact lent and repaid sums and lists the unclamped balance `lent - repaid`
(which may be negative when the borrower overpaid). -/
theorem c10_borrower_aggregations (ts : List Transaction) (name todayStart : String)
    (hamt : ∀ t ∈ ts, 0 ≤ t.amount)
    (htype : ∀ t ∈ ts, t.type = "LEND" ∨ t.type = "REPAYMENT")
    (hmem : name ∈ ts.map (fun t => t.borrower)) :
    jsMapGet? (App.distributionMap ts) name
      = some (max 0 (lentSum ts name - repaidSum ts name)) ∧
    ∃ agg, jsMapGet? (Views.borrowersViewMap todayStart ts) name = some agg ∧
      agg.lent = lentSum ts name ∧ agg.repaid = repaidSum ts name ∧
      (name, agg, lentSum ts name - repaidSum ts name)
        ∈ Views.borrowersList todayStart ts := by
  have htsName : ∀ t ∈ ts.filter (fun t => decide (t.borrower = name)), t ∈ ts :=
    fun t ht => (List.mem_filter.mp ht).1
  have hamtName : ∀ t ∈ ts.filter (fun t => decide (t.borrower = name)), 0 ≤ t.amount :=
    fun t ht => hamt t (htsName t ht)
  have htypeName : ∀ t ∈ ts.filter (fun t => decide (t.borrower = name)),
      t.type = "LEND" ∨ t.type = "REPAYMENT" :=
    fun t ht => htype t (htsName t ht)
  obtain ⟨t0, ht0, ht0b⟩ := List.mem_map.mp hmem
  have ht0f : t0 ∈ ts.filter (fun t => decide (t.borrower = name)) :=
    List.mem_filter.mpr ⟨ht0, by simpa using ht0b⟩
  -- the L and R sums
  have hLge : 0 ≤ lentSum ts name := by
    apply List.sum_nonneg
    intro x hx
    obtain ⟨t, ht, rfl⟩ := List.mem_map.mp hx
    exact hamtName t (List.mem_filter.mp ht).1
  -- distribution lookup, first pass
  have hm1 : jsMapGet?
      ((ts.filter (fun t => decide (t.type = "LEND"))).foldl
        (fun m t => jsMapSet m t.borrower (App.distLendStep (jsMapGet? m t.borrower) t)) [])
      name
      = ((ts.filter (fun t => decide (t.borrower = name))).filter
          (fun t => decide (t.type = "LEND"))).foldl
          (fun acc t => some (App.distLendStep acc t)) none := by
    rw [jsMapGet?_borrowerFold App.distLendStep (ts.filter (fun t => decide (t.type = "LEND")))
      [] name]
    rw [List.filter_comm]
    rfl
  have hAspec :
      jsMapGet?
        ((ts.filter (fun t => decide (t.type = "LEND"))).foldl
          (fun m t => jsMapSet m t.borrower (App.distLendStep (jsMapGet? m t.borrower) t)) [])
        name = some (lentSum ts name) ∨
      (jsMapGet?
        ((ts.filter (fun t => decide (t.type = "LEND"))).foldl
          (fun m t => jsMapSet m t.borrower (App.distLendStep (jsMapGet? m t.borrower) t)) [])
        name = none ∧ lentSum ts name = 0 ∧
        (ts.filter (fun t => decide (t.borrower = name))).filter
          (fun t => decide (t.type = "LEND")) = []) := by
    rw [hm1]
    cases hLk : (ts.filter (fun t => decide (t.borrower = name))).filter
        (fun t => decide (t.type = "LEND")) with
    | nil =>
        right
        refine ⟨rfl, ?_, rfl⟩
        unfold lentSum
        rw [hLk]
        rfl
    | cons u' us' =>
        left
        rw [foldl_distLend_none]
        unfold lentSum
        rw [hLk]
  -- distribution lookup, second pass
  have hd : jsMapGet? (App.distributionMap ts) name
      = ((ts.filter (fun t => decide (t.borrower = name))).filter
          (fun t => decide (t.type = "REPAYMENT"))).foldl
          (fun acc t => some (App.distRepayStep acc t))
          (jsMapGet?
            ((ts.filter (fun t => decide (t.type = "LEND"))).foldl
              (fun m t => jsMapSet m t.borrower (App.distLendStep (jsMapGet? m t.borrower) t))
              []) name) := by
    rw [show jsMapGet? (App.distributionMap ts) name
        = (ts.filter (fun t => decide (t.type = "REPAYMENT"))).foldl
            (fun acc t => some (App.distRepayStep acc t))
            (jsMapGet?
              ((ts.filter (fun t => decide (t.type = "LEND"))).foldl
                (fun m t => jsMapSet m t.borrower
                  (App.distLendStep (jsMapGet? m t.borrower) t)) [])
              name)
          |> fun _ => jsMapGet? (App.distributionMap ts) name
            = ((ts.filter (fun t => decide (t.type = "REPAYMENT"))).filter
                (fun t => decide (t.borrower = name))).foldl
                (fun acc t => some (App.distRepayStep acc t))
                (jsMapGet?
                  ((ts.filter (fun t => decide (t.type = "LEND"))).foldl
                    (fun m t => jsMapSet m t.borrower
                      (App.distLendStep (jsMapGet? m t.borrower) t)) [])
                  name)
        from jsMapGet?_borrowerFold App.distRepayStep
          (ts.filter (fun t => decide (t.type = "REPAYMENT"))) _ name]
    rw [List.filter_comm]
  constructor
  · -- distribution value
    rw [hd]
    cases hRk : (ts.filter (fun t => decide (t.borrower = name))).filter
        (fun t => decide (t.type = "REPAYMENT")) with
    | nil =>
        have hR0 : repaidSum ts name = 0 := by
          unfold repaidSum
          rw [hRk]
          rfl
        rw [List.foldl_nil, hR0]
        rcases hAspec with hA | ⟨hA, hL0, hLnil⟩
        · rw [hA, sub_zero, max_eq_right hLge]
        · exfalso
          rcases htypeName t0 ht0f with h1 | h1
          · have : t0 ∈ (ts.filter (fun t => decide (t.borrower = name))).filter
                (fun t => decide (t.type = "LEND")) :=
              List.mem_filter.mpr ⟨ht0f, by simpa using h1⟩
            rw [hLnil] at this
            simp at this
          · have : t0 ∈ (ts.filter (fun t => decide (t.borrower = name))).filter
                (fun t => decide (t.type = "REPAYMENT")) :=
              List.mem_filter.mpr ⟨ht0f, by simpa using h1⟩
            rw [hRk] at this
            simp at this
    | cons r rs =>
        have hamtR : ∀ u ∈ r :: rs, 0 ≤ u.amount := by
          intro u hu
          apply hamtName
          have : u ∈ (ts.filter (fun t => decide (t.borrower = name))).filter
              (fun t => decide (t.type = "REPAYMENT")) := by rw [hRk]; exact hu
          exact (List.mem_filter.mp this).1
        have hgetD : ∀ o : Option Int,
            (o = some (lentSum ts name) ∨ (o = none ∧ lentSum ts name = 0)) →
            (r :: rs).foldl (fun acc t => some (App.distRepayStep acc t)) o
              = some ((r :: rs).foldl (fun c t => max 0 (c - t.amount)) (lentSum ts name)) := by
          intro o ho
          rw [List.foldl_cons, List.foldl_cons]
          rcases ho with rfl | ⟨rfl, hz⟩
          · rw [show App.distRepayStep (some (lentSum ts name)) r
                = max 0 (lentSum ts name - r.amount) from rfl, foldl_distRepay_some]
          · rw [show App.distRepayStep none r = max 0 (0 - r.amount) from rfl,
              foldl_distRepay_some, hz]
        rw [hgetD _ (by
          rcases hAspec with hA | ⟨hA, hL0, _⟩
          · exact Or.inl hA
          · exact Or.inr ⟨hA, hL0⟩)]
        rw [clampFold_eq (r :: rs) (lentSum ts name) hamtR hLge]
        have hRsum : repaidSum ts name = ((r :: rs).map (fun t => t.amount)).sum := by
          unfold repaidSum
          rw [hRk]
        rw [hRsum]
  · -- borrowers view
    have hv : jsMapGet? (Views.borrowersViewMap todayStart ts) name
        = (ts.filter (fun t => decide (t.borrower = name))).foldl
            (fun acc t => some (Views.borrowerStep todayStart acc t)) none :=
      jsMapGet?_borrowerFold (Views.borrowerStep todayStart) ts [] name
    obtain ⟨u, us, htsEq⟩ : ∃ u us,
        ts.filter (fun t => decide (t.borrower = name)) = u :: us := by
      cases he : ts.filter (fun t => decide (t.borrower = name)) with
      | nil => rw [he] at ht0f; simp at ht0f
      | cons u us => exact ⟨u, us, rfl⟩
    rw [htsEq] at hv
    obtain ⟨agg, he2, hl2, hr2⟩ := viewFold_none todayStart u us
    refine ⟨agg, by rw [hv, he2], ?_, ?_, ?_⟩
    · rw [hl2]
      unfold lentSum
      rw [htsEq]
    · rw [hr2]
      have hwf2 : ∀ x ∈ u :: us, x.type = "LEND" ∨ x.type = "REPAYMENT" := by
        rw [← htsEq]; exact htypeName
      rw [filter_not_lend_eq (u :: us) hwf2]
      unfold repaidSum
      rw [htsEq]
    · have hmm2 : (name, agg) ∈ Views.borrowersViewMap todayStart ts :=
        mem_of_jsMapGet? name agg _ (by rw [hv, he2])
      have hmapped : (name, agg, agg.lent - agg.repaid)
          ∈ (Views.borrowersViewMap todayStart ts).map
              (fun p => (p.1, p.2, p.2.lent - p.2.repaid)) :=
        List.mem_map_of_mem _ hmm2
      have hbal : agg.lent - agg.repaid = lentSum ts name - repaidSum ts name := by
        rw [hl2, hr2]
        have hwf2 : ∀ x ∈ u :: us, x.type = "LEND" ∨ x.type = "REPAYMENT" := by
          rw [← htsEq]; exact htypeName
        rw [filter_not_lend_eq (u :: us) hwf2]
        unfold lentSum repaidSum
        rw [htsEq]
      rw [← hbal]
      unfold Views.borrowersList
      exact List.mem_mergeSort.mpr hmapped

/-- Witness for C10: Alice lent 100 and repaid 140; the distribution value
clamps to `max 0 (100 - 140) = 0` while the borrowers view carries the raw
sums whose balance is `-40`. -/
theorem c10_witness :
    jsMapGet? (App.distributionMap [txLend, txRepay, txOther]) "Alice"
      = some (max 0 (lentSum [txLend, txRepay, txOther] "Alice"
          - repaidSum [txLend, txRepay, txOther] "Alice")) ∧
    ∃ agg, jsMapGet? (Views.borrowersViewMap "2024-03-01T00:00:00.000Z"
        [txLend, txRepay, txOther]) "Alice" = some agg ∧
      agg.lent = lentSum [txLend, txRepay, txOther] "Alice" ∧
      agg.repaid = repaidSum [txLend, txRepay, txOther] "Alice" ∧
      ("Alice", agg, lentSum [txLend, txRepay, txOther] "Alice"
          - repaidSum [txLend, txRepay, txOther] "Alice")
        ∈ Views.borrowersList "2024-03-01T00:00:00.000Z" [txLend, txRepay, txOther] :=
  c10_borrower_aggregations [txLend, txRepay, txOther] "Alice" "2024-03-01T00:00:00.000Z"
    (by decide) (by decide) (by decide)

/-! ### Claim C4: row-mapping lemmas -/

theorem rowDateRes_ok (now : String) (row : Views.XlsxRow)
    (hp : Storage.jsTruthyStr (Views.rowDateVal row) = true →
      (Views.jsDateToISO ((Views.rowDateVal row).getD "")).isSome = true) :
    ∃ d, Views.rowDateRes now row = .ok d ∧
      (Storage.jsTruthyStr (Views.rowDateVal row) = false → d = now) := by
  by_cases h : Storage.jsTruthyStr (Views.rowDateVal row) = true
  · obtain ⟨iso, hiso⟩ := Option.isSome_iff_exists.mp (hp h)
    refine ⟨iso, ?_, ?_⟩
    · unfold Views.rowDateRes
      rw [if_pos h, hiso]
    · intro hf
      rw [h] at hf
      exact absurd hf (by simp)
  · refine ⟨now, ?_, fun _ => rfl⟩
    unfold Views.rowDateRes
    rw [if_neg h]

theorem rowDueRes_ok (row : Views.XlsxRow)
    (hp : Storage.jsTruthyStr (Views.rowDueVal row) = true →
      (Views.jsDateToISO ((Views.rowDueVal row).getD "")).isSome = true) :
    ∃ d, Views.rowDueRes row = .ok d := by
  by_cases h : Storage.jsTruthyStr (Views.rowDueVal row) = true
  · obtain ⟨iso, hiso⟩ := Option.isSome_iff_exists.mp (hp h)
    refine ⟨some iso, ?_⟩
    unfold Views.rowDueRes
    rw [if_pos h, hiso]
  · refine ⟨none, ?_⟩
    unfold Views.rowDueRes
    rw [if_neg h]

theorem rowAmount_unparseable (row : Views.XlsxRow)
    (h : Views.amountUnparseable row) : Views.rowAmount row = 0 := by
  unfold Views.amountUnparseable at h
  unfold Views.rowAmount
  cases hv : Views.rowAmountVal row with
  | none => rfl
  | some cv =>
      rw [hv] at h
      cases cv with
      | num a => exact absurd h (by simp)
      | str s =>
          have h2 : Views.jsParseFloat s = none := h
          show (Views.jsParseFloat s).getD 0 = 0
          rw [h2]
          rfl

theorem mapRow_ok (gen : Nat → String) (n : Nat) (target now : String)
    (row : Views.XlsxRow) (hp : Views.rowDatesParseable row) :
    ∃ r : Transaction × Nat, Views.mapRow gen n target now row = .ok r ∧
      r.1.amount = Views.rowAmount row ∧
      (Storage.jsTruthyStr (Views.rowDateVal row) = false → r.1.date = now) := by
  obtain ⟨d, hd, hdnow⟩ := rowDateRes_ok now row hp.1
  obtain ⟨du, hdu⟩ := rowDueRes_ok row hp.2
  unfold Views.mapRow
  rw [hd, hdu]
  exact ⟨_, rfl, rfl, fun hf => hdnow hf⟩

theorem importSheet_go (gen : Nat → String) (target now : String) :
    ∀ (rows : List Views.XlsxRow) (acc : List Transaction) (n : Nat),
      (∀ row ∈ rows, Views.rowDatesParseable row) →
      ∃ res : List Transaction × Nat,
        rows.foldlM
          (fun (acc2 : List Transaction × Nat) row => do
            let r ← Views.mapRow gen acc2.2 target now row
            pure (acc2.1 ++ [r.1], r.2))
          (acc, n) = .ok res ∧
        res.1.length = acc.length + rows.length := by
  intro rows
  induction rows with
  | nil => intro acc n _; exact ⟨(acc, n), rfl, by simp⟩
  | cons row rows ih =>
      intro acc n h
      obtain ⟨r, he, _, _⟩ := mapRow_ok gen n target now row (h row (by simp))
      obtain ⟨res, hres, hlen⟩ := ih (acc ++ [r.1]) r.2 (fun u hu => h u (by simp [hu]))
      refine ⟨res, ?_, ?_⟩
      · rw [List.foldlM_cons]
        rw [show Views.mapRow gen (acc, n).2 target now row = .ok r from he]
        exact hres
      · rw [hlen]
        simp
        omega

/-- C4 (amended): the row mapping coerces per row an unparseable amount to
zero and a missing date to the current time, and a worksheet whose present
date cells all parse imports completely, reporting the row count; a present
but unparseable date cell, however, raises a `RangeError` and the import
fails instead of coercing (see the counterexample). -/
theorem c4_row_coercion (gen : Nat → String) (target now : String) :
    (∀ (n : Nat) (row : Views.XlsxRow), Views.rowDatesParseable row →
        ∃ t n2, Views.mapRow gen n target now row = .ok (t, n2) ∧
          (Views.amountUnparseable row → t.amount = 0) ∧
          (Storage.jsTruthyStr (Views.rowDateVal row) = false → t.date = now)) ∧
    (∀ rows : List Views.XlsxRow, (∀ row ∈ rows, Views.rowDatesParseable row) →
        ∃ ts, Views.importSheetRows gen target now rows = .ok ts ∧
          ts.length = rows.length) := by
  constructor
  · intro n row hp
    obtain ⟨r, he, hamount, hdate⟩ := mapRow_ok gen n target now row hp
    exact ⟨r.1, r.2, he, fun hup => by rw [hamount]; exact rowAmount_unparseable row hup,
      hdate⟩
  · intro rows h
    obtain ⟨res, hres, hlen⟩ := importSheet_go gen target now rows [] 0 h
    refine ⟨res.1, ?_, by simpa using hlen⟩
    unfold Views.importSheetRows
    rw [hres]
    rfl

/-- Counterexample to C4 as frozen: a row whose `Date` cell holds the
present but unparseable string `"not-a-date"` makes the row mapping throw
(`RangeError` from `toISOString` on an Invalid Date), and the import of a
sheet containing it fails instead of completing with a count. -/
theorem c4_counterexample :
    Views.mapRow (fun _ => "gid") 0 "a1" "2024-05-01T00:00:00.000Z" Views.badRow
      = .error "RangeError: Invalid time value" ∧
    Views.importSheetRows (fun _ => "gid") "a1" "2024-05-01T00:00:00.000Z" [Views.badRow]
      = .error "RangeError: Invalid time value" := by
  constructor
  · rfl
  · rfl

/-- Witness for C4 at a concrete row: missing date coerces to `now`,
unparseable amount coerces to zero, sheet import succeeds with count 1. -/
theorem c4_witness :
    (∃ t n2, Views.mapRow (fun _ => "gid") 0 "a1" "2024-05-01T00:00:00.000Z" Views.goodRow
        = .ok (t, n2) ∧
      (Views.amountUnparseable Views.goodRow → t.amount = 0) ∧
      (Storage.jsTruthyStr (Views.rowDateVal Views.goodRow) = false →
        t.date = "2024-05-01T00:00:00.000Z")) ∧
    (∃ ts, Views.importSheetRows (fun _ => "gid") "a1" "2024-05-01T00:00:00.000Z"
        [Views.goodRow] = .ok ts ∧ ts.length = [Views.goodRow].length) :=
  ⟨(c4_row_coercion (fun _ => "gid") "a1" "2024-05-01T00:00:00.000Z").1 0 Views.goodRow
      (by decide),
    (c4_row_coercion (fun _ => "gid") "a1" "2024-05-01T00:00:00.000Z").2 [Views.goodRow]
      (by decide)⟩

end DebtTracker
